import Mathlib

/-!
Verification development for the abcreport Jira plugin's report engine.

The TypeScript sources are shallowly embedded:
- issue payloads are arbitrary JSON-like values (`JsonVal`), since the field
  extractor traverses them dynamically;
- JavaScript `undefined` is a distinct `JsonVal.undef` value (the source
  distinguishes it from `null` in destructuring defaults and `??`);
- property accesses that can raise a `TypeError` in JavaScript (reads on
  `null`/`undefined`) are modelled in the `Except String` monad (`jsGet`);
  accesses the source performs only behind an explicit nullish guard are
  modelled by the total `propAccess`;
- `Map` objects are association lists in insertion order, matching the
  iteration order the report generator relies on;
- the locale- and timezone-dependent `Date.prototype.toLocaleDateString`
  rendering of date-like strings is an arbitrary parameter `locale`;
- numbers in the man-day formatter are `ℚ` (the source only applies exact
  arithmetic, `Math.floor`, `Math.round` and `Math.abs` to them); `NaN` has
  no representation, so the `isNaN` guards collapse to their false branch.
-/

/-- A JavaScript/JSON runtime value as the field extractor sees it.
`undef` is JavaScript `undefined` (absent property), distinct from JSON `null`. -/
inductive JsonVal where
  | null
  | undef
  | bool (b : Bool)
  | num (n : Int)
  | str (s : String)
  | arr (xs : List JsonVal)
  | obj (fs : List (String × JsonVal))

/-- Is the value `null` or `undefined` (the bases on which property reads throw)? -/
def isNullish : JsonVal → Bool
  | .null => true
  | .undef => true
  | _ => false

def isUndef : JsonVal → Bool
  | .undef => true
  | _ => false

def isArrB : JsonVal → Bool
  | .arr _ => true
  | _ => false

def isObjB : JsonVal → Bool
  | .obj _ => true
  | _ => false

/-- JavaScript truthiness (`NaN` is unrepresentable; `-0` does not exist in `Int`). -/
def jsTruthy : JsonVal → Bool
  | .null => false
  | .undef => false
  | .bool b => b
  | .num n => n != 0
  | .str s => s ≠ ""
  | .arr _ => true
  | .obj _ => true

/-- JavaScript `a || b`. -/
def jsOr (a b : JsonVal) : JsonVal := if jsTruthy a then a else b

/-- JavaScript strict equality `===` on values compared across distinct tree
positions: primitives compare structurally; arrays and objects compare by
reference, and two values at distinct positions of tree-shaped JSON data are
distinct references, so the result is `false`. The one same-reference
comparison in this code — the join filter testing an element's format result
against the very fallback the recursive call returned — is tracked separately
by the fallback flag of `fmtCore` (see `dropFallback`). -/
def jsStrictEq : JsonVal → JsonVal → Bool
  | .null, .null => true
  | .undef, .undef => true
  | .bool a, .bool b => a == b
  | .num a, .num b => a == b
  | .str a, .str b => a == b
  | _, _ => false

/-- First-match association lookup; a missing key reads as `undefined`.
JavaScript objects cannot carry duplicate keys, so first-match is exact. -/
def objLookup : List (String × JsonVal) → String → JsonVal
  | [], _ => .undef
  | (k', v) :: tl, k => if k' = k then v else objLookup tl k

def digitsToNat (ds : List Char) : Nat :=
  ds.foldl (fun n c => n * 10 + (c.toNat - '0'.toNat)) 0

/-- Parses a canonical array-index property key (`"0"`, `"17"`, but not `"03"`),
the only string keys JavaScript treats as array indices. -/
def parseCanonicalNat (s : String) : Option Nat :=
  match s.data with
  | [] => none
  | ['0'] => some 0
  | c :: rest =>
    if c.isDigit ∧ c ≠ '0' ∧ rest.all Char.isDigit then some (digitsToNat (c :: rest))
    else none

/-- Property read on a non-nullish base, as JavaScript resolves it for the data
reachable here: object members, array elements and `length`, string characters and
`length`. Built-in prototype methods are not readable through field paths in this
codebase and read as `undefined`. -/
def propAccess (v : JsonVal) (k : String) : JsonVal :=
  match v with
  | .obj fs => objLookup fs k
  | .arr xs =>
    if k = "length" then .num (xs.length : Int)
    else
      match parseCanonicalNat k with
      | some i =>
        match xs.get? i with
        | some e => e
        | none => .undef
      | none => .undef
  | .str s =>
    if k = "length" then .num (s.length : Int)
    else
      match parseCanonicalNat k with
      | some i =>
        match s.data.get? i with
        | some c => .str (String.mk [c])
        | none => .undef
      | none => .undef
  | _ => (.undef)

/-- A JavaScript property read: throws a `TypeError` on `null`/`undefined`,
otherwise resolves through `propAccess`. -/
def jsGet (v : JsonVal) (k : String) : Except String JsonVal :=
  if isNullish v then .error "TypeError: cannot read properties of null or undefined"
  else .ok (propAccess v k)

def charListPrefixOf : List Char → List Char → Bool
  | [], _ => true
  | _ :: _, [] => false
  | a :: as, b :: bs => a == b && charListPrefixOf as bs

/-- JavaScript `String.prototype.startsWith`. -/
def strStartsWith (s p : String) : Bool := charListPrefixOf p.data s.data

def containsSeq : List Char → List Char → Bool
  | needle, [] => needle.isEmpty
  | needle, h :: t => charListPrefixOf needle (h :: t) || containsSeq needle t

/-- JavaScript `String.prototype.includes`. -/
def strContains (s sub : String) : Bool := containsSeq sub.data s.data

def splitOnDotAux : List Char → List Char → List String
  | [], acc => [String.mk acc.reverse]
  | c :: rest, acc =>
    if c = '.' then String.mk acc.reverse :: splitOnDotAux rest []
    else splitOnDotAux rest (c :: acc)

/-- JavaScript `path.split('.')` (keeps empty segments; never returns `[]`). -/
def splitOnDot (s : String) : List String := splitOnDotAux s.data []

def isWordChar (c : Char) : Bool := c.isAlphanum || c == '_'

/-- The `/^(\w+)\[(\d+)\]$/` match of `extractFieldValue`: splits a path segment
like `labels[0]` into the property name and the decimal index. -/
def parseArrayAccess (part : String) : Option (String × Nat) :=
  let cs := part.data
  let name := cs.takeWhile (fun c => c != '[')
  let rest := cs.dropWhile (fun c => c != '[')
  match rest with
  | '[' :: rest' =>
    match rest'.reverse with
    | ']' :: innerRev =>
      let inner := innerRev.reverse
      if name ≠ [] ∧ name.all isWordChar ∧ inner ≠ [] ∧ inner.all Char.isDigit then
        some (String.mk name, digitsToNat inner)
      else none
    | _ => none
  | _ => none

/-- The traversal loop of `extractFieldValue`: consumes path segments left to
right, returning `null` the moment the current value is nullish, an indexed
segment's target is not an array, or the index is out of bounds; the final
`current ?? null` collapses `undefined` to `null`. -/
def walk : JsonVal → List String → JsonVal
  | current, [] => if isNullish current then .null else current
  | current, part :: rest =>
    if isNullish current then .null
    else
      match parseArrayAccess part with
      | some (arrayName, index) =>
        match propAccess current arrayName with
        | .arr xs =>
          match xs.get? index with
          | some e => if isUndef e then .null else walk e rest
          | none => .null
        | _ => .null
      | none => walk (propAccess current part) rest

/-- `extractFieldValue(issue, fieldPath)` from `utils/fieldExtractor.ts`:
guards empty path and falsy issue, expands the `fields.` shorthand (the inner
`path === 'key' || 'id'` early return of the source is unreachable and kept
verbatim), then walks the dot-separated segments. -/
def extractFieldValue (issue : JsonVal) (fieldPath : String) : JsonVal :=
  if fieldPath = "" ∨ jsTruthy issue = false then .null
  else if strStartsWith fieldPath "fields." = false ∧ strStartsWith fieldPath "key" = false
      ∧ strStartsWith fieldPath "id" = false then
    if fieldPath = "key" ∨ fieldPath = "id" then jsOr (propAccess issue fieldPath) .null
    else walk issue (splitOnDot ("fields." ++ fieldPath))
  else walk issue (splitOnDot fieldPath)

/-- `walk` with every property read routed through the throwing `jsGet`;
used to prove the loop can never actually throw. -/
def walkE : JsonVal → List String → Except String JsonVal
  | current, [] => .ok (if isNullish current then .null else current)
  | current, part :: rest =>
    if isNullish current then .ok .null
    else
      match parseArrayAccess part with
      | some (arrayName, index) => do
        let c2 ← jsGet current arrayName
        match c2 with
        | .arr xs =>
          match xs.get? index with
          | some e => if isUndef e then .ok .null else walkE e rest
          | none => .ok .null
        | _ => .ok .null
      | none => do
        let c2 ← jsGet current part
        walkE c2 rest

/-- `extractFieldValue` with throwing property reads (see `walkE`). -/
def extractFieldValueE (issue : JsonVal) (fieldPath : String) : Except String JsonVal :=
  if fieldPath = "" ∨ jsTruthy issue = false then .ok .null
  else if strStartsWith fieldPath "fields." = false ∧ strStartsWith fieldPath "key" = false
      ∧ strStartsWith fieldPath "id" = false then
    if fieldPath = "key" ∨ fieldPath = "id" then do
      let v ← jsGet issue fieldPath
      pure (jsOr v .null)
    else walkE issue (splitOnDot ("fields." ++ fieldPath))
  else walkE issue (splitOnDot fieldPath)

/-- Does the string match `/^\d{4}-\d{2}-\d{2}/` (the formatter's date test)? -/
def isDateLike (s : String) : Bool :=
  match s.data with
  | y1 :: y2 :: y3 :: y4 :: '-' :: m1 :: m2 :: '-' :: d1 :: d2 :: _ =>
    y1.isDigit && y2.isDigit && y3.isDigit && y4.isDigit &&
    m1.isDigit && m2.isDigit && d1.isDigit && d2.isDigit
  | _ => false

mutual

/-- JavaScript `String(v)` for the values `Array.prototype.join` stringifies:
nullish elements become the empty string, arrays recursively join with `","`,
plain objects print as `[object Object]`. -/
def jsToDisplay : JsonVal → String
  | .null => ""
  | .undef => ""
  | .bool b => if b then "true" else "false"
  | .num n => toString n
  | .str s => s
  | .arr xs => jsJoinComma xs
  | .obj _ => "[object Object]"

def jsJoinComma : List JsonVal → String
  | [] => ""
  | [x] => jsToDisplay x
  | x :: y :: tl => jsToDisplay x ++ "," ++ jsJoinComma (y :: tl)

end

/-- JavaScript `Array.prototype.join(sep)`. -/
def jsJoinVals : List JsonVal → String → String
  | [], _ => ""
  | [x], _ => jsToDisplay x
  | x :: y :: tl, sep => jsToDisplay x ++ sep ++ jsJoinVals (y :: tl) sep

def hexDigitChar (n : Nat) : Char :=
  if n < 10 then Char.ofNat ('0'.toNat + n) else Char.ofNat ('a'.toNat + (n - 10))

def escapeJsonChar (c : Char) : String :=
  if c = '"' then "\\\""
  else if c = '\\' then "\\\\"
  else if c = '\x08' then "\\b"
  else if c = '\x0c' then "\\f"
  else if c = '\n' then "\\n"
  else if c = '\r' then "\\r"
  else if c = '\t' then "\\t"
  else if c.toNat < 0x20 then
    "\\u00" ++ String.mk [hexDigitChar (c.toNat / 16), hexDigitChar (c.toNat % 16)]
  else String.mk [c]

def quoteJson (s : String) : String :=
  "\"" ++ String.join (s.data.map escapeJsonChar) ++ "\""

mutual

/-- `JSON.stringify` on acyclic in-memory values (cannot throw here, so the
formatter's `catch` branch is dead). `undefined` appears only as an array
element, where `JSON.stringify` writes `null`; `undefined`-valued object
members are skipped. -/
def jsonStringify : JsonVal → String
  | .null => "null"
  | .undef => "null"
  | .bool b => if b then "true" else "false"
  | .num n => toString n
  | .str s => quoteJson s
  | .arr xs => "[" ++ jsonStringifyArr xs ++ "]"
  | .obj fs => "\x7b" ++ jsonStringifyObj fs ++ "\x7d"

def jsonStringifyArr : List JsonVal → String
  | [] => ""
  | [x] => jsonStringify x
  | x :: y :: tl => jsonStringify x ++ "," ++ jsonStringifyArr (y :: tl)

def jsonStringifyObj : List (String × JsonVal) → String
  | [] => ""
  | (_, .undef) :: tl => jsonStringifyObj tl
  | (k, v) :: tl =>
    let rest := jsonStringifyObj tl
    let head := quoteJson k ++ ":" ++ jsonStringify v
    if rest = "" then head else head ++ "," ++ rest

end

/-- The object branch of `formatFieldValue` (part_003 lines 127-146): probe
`displayName`, `name`, `key`, `summary` by truthiness and return the raw
member value; then the source tests
`value.toString && value.toString !== Object.prototype.toString`. An absent
own `toString` resolves to the inherited `Object.prototype.toString` and fails
the second test; a falsy own member fails the first; a truthy own member is a
JSON value — never that built-in function — so the test passes and calling
`value.toString()` throws a `TypeError`. Otherwise `JSON.stringify`
serializes (it cannot throw on acyclic in-memory values, so the `catch`
branch is dead). -/
def fmtObj (fs : List (String × JsonVal)) : Except String JsonVal :=
  let d := objLookup fs "displayName"
  if jsTruthy d then .ok d
  else
    let n := objLookup fs "name"
    if jsTruthy n then .ok n
    else
      let k := objLookup fs "key"
      if jsTruthy k then .ok k
      else
        let s := objLookup fs "summary"
        if jsTruthy s then .ok s
        else
          let ts := objLookup fs "toString"
          if jsTruthy ts then .error "TypeError: value.toString is not a function"
          else .ok (.str (jsonStringify (.obj fs)))

/-- The three multi-value policies of `FieldMappingConfig.multiValueHandling`. -/
inductive MultiValueHandling where
  | join
  | first
  | all
deriving DecidableEq

/-- The `.filter(item => item !== fallback)` step of the join branch, keeping
the raw values: an element result is `===` the fallback exactly when it is the
fallback reference the recursive call returned (the flag) or a primitive
with the fallback's value. -/
def dropFallback (items : List (JsonVal × Bool)) (fb : JsonVal) : List JsonVal :=
  (items.filter (fun p => !(p.2 || jsStrictEq p.1 fb))).map (fun p => p.1)

mutual

/-- The recursive core of `formatFieldValue`: the behavior under the options
the recursive calls pass, namely `{ fallback }` with `multiValueHandling` and
`separator` at their destructuring defaults (`'join'`, `", "`). `fb` is the
already-resolved fallback. The result value is paired with a flag marking a
result that is the fallback reference itself (returned by a fallback branch);
in tree-shaped JSON data no other result can alias the fallback. -/
def fmtCore (locale : String → String) (fb : JsonVal) :
    JsonVal → Except String (JsonVal × Bool)
  | .null => .ok (fb, true)
  | .undef => .ok (fb, true)
  | .arr [] => .ok (fb, true)
  | .arr (x :: xs) => do
    let items ← fmtList locale fb (x :: xs)
    .ok (.str (jsJoinVals (dropFallback items fb) ", "), false)
  | .obj fs => do
    let r ← fmtObj fs
    .ok (r, false)
  | .str s => .ok (if isDateLike s then .str (locale s) else .str s, false)
  | .bool b => .ok (.str (if b then "Yes" else "No"), false)
  | .num n => .ok (.str (toString n), false)

def fmtList (locale : String → String) (fb : JsonVal) :
    List JsonVal → Except String (List (JsonVal × Bool))
  | [] => .ok []
  | v :: tl => do
    let r ← fmtCore locale fb v
    let rs ← fmtList locale fb tl
    .ok (r :: rs)

end

/-- Options object of `formatFieldValue`; `none`/`undef` mean the property is
absent or `undefined`, which triggers the destructuring default. -/
structure FormatOptions where
  multiValueHandling : Option MultiValueHandling := none
  separator : Option String := none
  fallback : JsonVal := (.undef)

/-- The destructuring default `fallback = '-'` (applies to absent or
`undefined`, not to `null`). -/
def resolveFallback : JsonVal → JsonVal
  | .undef => .str "-"
  | v => v

/-- `formatFieldValue(value, options)` from `utils/fieldExtractor.ts`. The
`'all'` branch returns the raw array (the source's type pun); the object
branch can throw through `fmtObj`; every other branch produces a string or
the fallback value. -/
def formatFieldValue (locale : String → String) (value : JsonVal)
    (opts : FormatOptions) : Except String JsonVal :=
  let mvh := opts.multiValueHandling.getD .join
  let sep := opts.separator.getD ", "
  let fb := resolveFallback opts.fallback
  match value with
  | .arr [] => .ok fb
  | .arr (x :: xs) =>
    match mvh with
    | .first => (fmtCore locale fb x).map (fun p => p.1)
    | .all => .ok (.arr (x :: xs))
    | .join => do
      let items ← fmtList locale fb (x :: xs)
      .ok (.str (jsJoinVals (dropFallback items fb) sep))
  | v => (fmtCore locale fb v).map (fun p => p.1)

/-- `getFieldDisplayValue(issue, fieldPath, options)`: extract then format. -/
def getFieldDisplayValue (locale : String → String) (issue : JsonVal)
    (fieldPath : String) (opts : FormatOptions) : Except String JsonVal :=
  formatFieldValue locale (extractFieldValue issue fieldPath) opts

def idLocale : String → String := fun s => s

/-- JavaScript `toLowerCase` on the ASCII and Latin-1 ranges (the only
characters the status vocabularies and the user ids here can contain;
`×` U+00D7 has no lowercase form). -/
def jsCharLower (c : Char) : Char :=
  if c.toNat ≥ 65 ∧ c.toNat ≤ 90 then Char.ofNat (c.toNat + 32)
  else if c.toNat ≥ 0xC0 ∧ c.toNat ≤ 0xDE ∧ c.toNat ≠ 0xD7 then Char.ofNat (c.toNat + 32)
  else c

def jsToLowerString (s : String) : String := String.mk (s.data.map jsCharLower)

/-- Canonical decomposition (NFD) for precomposed Latin-1 letters; characters
outside the table are already decomposed or unaccented for the inputs this
code normalizes (the status vocabularies are pure ASCII after this step). -/
def nfdDecomp (c : Char) : List Char :=
  let grave := Char.ofNat 0x300
  let acute := Char.ofNat 0x301
  let circ := Char.ofNat 0x302
  let tilde := Char.ofNat 0x303
  let diaer := Char.ofNat 0x308
  let ring := Char.ofNat 0x30A
  let cedil := Char.ofNat 0x327
  match c with
  | 'à' => ['a', grave] | 'á' => ['a', acute] | 'â' => ['a', circ]
  | 'ã' => ['a', tilde] | 'ä' => ['a', diaer] | 'å' => ['a', ring]
  | 'ç' => ['c', cedil]
  | 'è' => ['e', grave] | 'é' => ['e', acute] | 'ê' => ['e', circ] | 'ë' => ['e', diaer]
  | 'ì' => ['i', grave] | 'í' => ['i', acute] | 'î' => ['i', circ] | 'ï' => ['i', diaer]
  | 'ñ' => ['n', tilde]
  | 'ò' => ['o', grave] | 'ó' => ['o', acute] | 'ô' => ['o', circ]
  | 'õ' => ['o', tilde] | 'ö' => ['o', diaer]
  | 'ù' => ['u', grave] | 'ú' => ['u', acute] | 'û' => ['u', circ] | 'ü' => ['u', diaer]
  | 'ý' => ['y', acute] | 'ÿ' => ['y', diaer]
  | 'À' => ['A', grave] | 'Á' => ['A', acute] | 'Â' => ['A', circ]
  | 'Ã' => ['A', tilde] | 'Ä' => ['A', diaer] | 'Å' => ['A', ring]
  | 'Ç' => ['C', cedil]
  | 'È' => ['E', grave] | 'É' => ['E', acute] | 'Ê' => ['E', circ] | 'Ë' => ['E', diaer]
  | 'Ì' => ['I', grave] | 'Í' => ['I', acute] | 'Î' => ['I', circ] | 'Ï' => ['I', diaer]
  | 'Ñ' => ['N', tilde]
  | 'Ò' => ['O', grave] | 'Ó' => ['O', acute] | 'Ô' => ['O', circ]
  | 'Õ' => ['O', tilde] | 'Ö' => ['O', diaer]
  | 'Ù' => ['U', grave] | 'Ú' => ['U', acute] | 'Û' => ['U', circ] | 'Ü' => ['U', diaer]
  | 'Ý' => ['Y', acute]
  | c => [c]

def nfdString (s : String) : String := String.mk (s.data.flatMap nfdDecomp)

/-- Is the character in the combining diacritical marks block U+0300–U+036F
(the range `.replace(/[̀-ͯ]/g, '')` strips)? -/
def isCombiningMark (c : Char) : Bool := 0x300 ≤ c.toNat ∧ c.toNat ≤ 0x36F

def stripCombiningMarks (s : String) : String :=
  String.mk (s.data.filter (fun c => !(isCombiningMark c)))

/-- `statusName.toLowerCase().normalize('NFD').replace(/[̀-ͯ]/g, '')`. -/
def normalizeStatus (statusName : String) : String :=
  stripCombiningMarks (nfdString (jsToLowerString statusName))

/-- The `IssueSection` enum of `types/jira.ts`. -/
inductive IssueSection where
  | LAST_WEEK
  | CURRENT_WEEK
  | NEXT_WEEK
  | LATER
deriving DecidableEq

/-- `ReportService.categorizeIssue`: normalize, then test the fixed vocabularies
in source order (done → in-progress → to-do → later). -/
def categorizeIssue (statusName : String) : IssueSection :=
  let statusLower := normalizeStatus statusName
  if strContains statusLower "done" || strContains statusLower "closed" ||
     strContains statusLower "resolved" || strContains statusLower "termine" ||
     strContains statusLower "fini" || strContains statusLower "complete" ||
     strContains statusLower "resolu" then
    .LAST_WEEK
  else if strContains statusLower "in progress" || strContains statusLower "in development" ||
     strContains statusLower "testing" || strContains statusLower "en cours" ||
     strContains statusLower "en developpement" || strContains statusLower "en test" ||
     strContains statusLower "en revue" || strContains statusLower "code review" ||
     strContains statusLower "review" then
    .CURRENT_WEEK
  else if strContains statusLower "to do" || strContains statusLower "open" ||
     strContains statusLower "ready" || strContains statusLower "a faire" ||
     strContains statusLower "a realiser" || strContains statusLower "nouveau" ||
     strContains statusLower "nouvelle" || strContains statusLower "pret" ||
     strContains statusLower "backlog" then
    .NEXT_WEEK
  else
    .LATER

/-- `FieldMappingConfig` from `types/template.ts`. -/
structure FieldMappingConfig where
  categoryField : String
  initiativeField : String
  issueItemField : String
  multiValueHandling : MultiValueHandling
  multiValueSeparator : String

/-- `IssueSelectionConfig` from `types/template.ts`. -/
structure IssueSelectionConfig where
  maxDepth : Int
  includeNestedChildren : Bool
  parentGroupingField : String

/-- The fields of `DEFAULT_TEMPLATE` the report generator reads. -/
structure DefaultTemplateConfig where
  description : String
  isShared : Bool
  fieldMapping : FieldMappingConfig
  issueSelection : IssueSelectionConfig

/-- `DEFAULT_TEMPLATE` from `types/template.ts`. -/
def DEFAULT_TEMPLATE : DefaultTemplateConfig :=
  { description := "Default template matching original behavior"
    isShared := false
    fieldMapping :=
      { categoryField := "fields.parent.fields.summary"
        initiativeField := "fields.labels"
        issueItemField := "fields.summary"
        multiValueHandling := .join
        multiValueSeparator := ", " }
    issueSelection :=
      { maxDepth := 1
        includeNestedChildren := false
        parentGroupingField := "fields.parent.key" } }

/-- The `Partial<ReportTemplate>` argument of `generateReport`: only the two
members it reads, each possibly absent. -/
structure TemplateInput where
  fieldMapping : Option FieldMappingConfig := none
  issueSelection : Option IssueSelectionConfig := none

/-- A report row; `category`, `initiative` and the pushed items are raw
JavaScript values (the formatter can return non-strings through its `'all'`
pun and object-probe branches). -/
structure ReportRow where
  category : JsonVal
  initiative : JsonVal
  lastWeek : List JsonVal
  currentWeek : List JsonVal
  nextWeek : List JsonVal
  later : List JsonVal

/-- `ReportService.getIssuesWithDepth`: both branches return the input
(nested-children expansion is an explicit TODO in the source). -/
def getIssuesWithDepth (issues : List JsonVal) (cfg : IssueSelectionConfig) :
    List JsonVal :=
  if cfg.includeNestedChildren = false ∨ cfg.maxDepth ≤ 1 then issues else issues

/-- `Map` keyed by JavaScript values in insertion order. `mapPush` is the
`if (!m.has(k)) m.set(k, []); m.get(k)!.push(v)` idiom. Key sameness is
`jsStrictEq` (object keys in this codebase are always distinct references,
which `jsStrictEq` reflects by returning `false` on non-primitives). -/
def mapPush (m : List (JsonVal × List JsonVal)) (key : JsonVal) (issue : JsonVal) :
    List (JsonVal × List JsonVal) :=
  if m.any (fun e => jsStrictEq e.1 key) then
    m.map (fun e => if jsStrictEq e.1 key then (e.1, e.2 ++ [issue]) else e)
  else m ++ [(key, [issue])]

/-- `ReportService.groupIssuesByParent`. -/
def groupIssuesByParent (issues : List JsonVal) (parentGroupingField : String) :
    List (JsonVal × List JsonVal) :=
  issues.foldl
    (fun m issue =>
      mapPush m (jsOr (extractFieldValue issue parentGroupingField) (.str "UNPARENTED")) issue)
    []

/-- `ReportService.groupIssuesByField`: groups issues by the formatted field
value (the format is computed eagerly, so it can throw before the branch);
under `'all'` with a non-empty array value, the issue joins one group per
element instead. -/
def groupIssuesByField (locale : String → String) (issues : List JsonVal)
    (fieldPath : String) (multiValueHandling : MultiValueHandling)
    (separator : String) : Except String (List (JsonVal × List JsonVal)) :=
  issues.foldlM
    (fun m issue => do
      let fieldValue := extractFieldValue issue fieldPath
      let formattedValue ← formatFieldValue locale fieldValue
        { multiValueHandling := some multiValueHandling, separator := some separator
          fallback := .str "No value" }
      match multiValueHandling, fieldValue with
      | .all, .arr (x :: xs) =>
        (x :: xs).foldlM
          (fun m2 v => do
            let formatted ← formatFieldValue locale v { fallback := .str "No value" }
            pure (mapPush m2 (jsOr formatted (.str "No value")) issue))
          m
      | _, _ => pure (mapPush m (jsOr formattedValue (.str "No value")) issue))
    []

def enumProps : Nat → List JsonVal → List (String × JsonVal)
  | _, [] => []
  | i, v :: tl => (toString i, v) :: enumProps (i + 1) tl

def charProps : Nat → List Char → List (String × JsonVal)
  | _, [] => []
  | i, c :: tl => (toString i, JsonVal.str (String.mk [c])) :: charProps (i + 1) tl

/-- Own enumerable properties for object spread: objects spread their members,
arrays and strings spread index properties, primitives spread nothing. -/
def spreadProps : JsonVal → List (String × JsonVal)
  | .obj fs => fs
  | .arr xs => enumProps 0 xs
  | .str s => charProps 0 s.data
  | _ => []

def assocSetJson (fs : List (String × JsonVal)) (k : String) (v : JsonVal) :
    List (String × JsonVal) :=
  if fs.any (fun e => e.1 = k) then
    fs.map (fun e => if e.1 = k then (k, v) else e)
  else fs ++ [(k, v)]

/-- The `{ ...parentIssue, fields: parentIssue.fields || {} }` literal. -/
def spreadWithFields (p fieldsVal : JsonVal) : JsonVal :=
  .obj (assocSetJson (spreadProps p) "fields" fieldsVal)

/-- The category derivation for one parent group: read the first child's
`fields.parent` (throwing reads), and when it is truthy, format
`categoryField` against the merged parent with fallback `"Uncategorized"`
(the format itself can throw through the object branch). -/
def categoryOfGroup (locale : String → String) (fieldMapping : FieldMappingConfig)
    (childIssues : List JsonVal) : Except String JsonVal := do
  match childIssues with
  | [] => .error "TypeError: cannot read properties of undefined"
  | c :: _ =>
    let f ← jsGet c "fields"
    let parentIssue ← jsGet f "parent"
    if jsTruthy parentIssue then
      let parentAsIssue :=
        spreadWithFields parentIssue (jsOr (propAccess parentIssue "fields") (.obj []))
      getFieldDisplayValue locale parentAsIssue fieldMapping.categoryField
        { fallback := .str "Uncategorized" }
    else
      pure (.str "Uncategorized")

def pushSection (row : ReportRow) (sec : IssueSection) (item : JsonVal) : ReportRow :=
  match sec with
  | .LAST_WEEK => { row with lastWeek := row.lastWeek ++ [item] }
  | .CURRENT_WEEK => { row with currentWeek := row.currentWeek ++ [item] }
  | .NEXT_WEEK => { row with nextWeek := row.nextWeek ++ [item] }
  | .LATER => { row with later := row.later ++ [item] }

/-- One `ReportRow` for an initiative group: categorize each issue's
`fields.status.name` (throwing reads; `toLowerCase` on a non-string throws)
and push the formatted `issueItemField` value (the format can throw) with the
issue's key as fallback. -/
def rowForGroup (locale : String → String) (fieldMapping : FieldMappingConfig)
    (category initiativeValue : JsonVal) (groupIssues : List JsonVal) :
    Except String ReportRow :=
  groupIssues.foldlM
    (fun row issue => do
      let f ← jsGet issue "fields"
      let st ← jsGet f "status"
      let nm ← jsGet st "name"
      let sec ←
        match nm with
        | .str s => Except.ok (categorizeIssue s)
        | _ => Except.error "TypeError: statusName.toLowerCase is not a function"
      let keyVal ← jsGet issue "key"
      let issueItem ← getFieldDisplayValue locale issue fieldMapping.issueItemField
        { multiValueHandling := some .join, separator := some ", ", fallback := keyVal }
      pure (pushSection row sec issueItem))
    { category := category
      initiative := jsOr initiativeValue (.str "No initiative")
      lastWeek := [], currentWeek := [], nextWeek := [], later := [] }

/-- `ReportService.generateReport(issues, template?)`. -/
def generateReport (locale : String → String) (issues : List JsonVal)
    (template : Option TemplateInput) : Except String (List ReportRow) := do
  let fieldMapping :=
    match template with
    | some t => t.fieldMapping.getD DEFAULT_TEMPLATE.fieldMapping
    | none => DEFAULT_TEMPLATE.fieldMapping
  let issueSelection :=
    match template with
    | some t => t.issueSelection.getD DEFAULT_TEMPLATE.issueSelection
    | none => DEFAULT_TEMPLATE.issueSelection
  let allIssues := getIssuesWithDepth issues issueSelection
  let groupedByParent := groupIssuesByParent allIssues issueSelection.parentGroupingField
  groupedByParent.foldlM
    (fun rows entry => do
      let category ← categoryOfGroup locale fieldMapping entry.2
      let groupedByInitiative ← groupIssuesByField locale entry.2
        fieldMapping.initiativeField fieldMapping.multiValueHandling
        fieldMapping.multiValueSeparator
      groupedByInitiative.foldlM
        (fun rows2 ge => do
          let row ← rowForGroup locale fieldMapping category ge.1 ge.2
          pure (rows2 ++ [row]))
        rows)
    []

/-- Child issue `KAN-2` of the end-to-end scenario: status `"Done"`,
labels `["Alpha"]`, parent `KAN-1`. -/
def kan2 : JsonVal :=
  .obj [("key", .str "KAN-2"),
        ("fields", .obj
          [("summary", .str "Implement login page"),
           ("status", .obj [("name", .str "Done")]),
           ("labels", .arr [.str "Alpha"]),
           ("parent", .obj [("key", .str "KAN-1"),
                            ("fields", .obj [("summary", .str "Checkout epic")])])])]

/-- Child issue `KAN-3` of the end-to-end scenario: status `"In Progress"`,
labels `["Alpha"]`, parent `KAN-1`. -/
def kan3 : JsonVal :=
  .obj [("key", .str "KAN-3"),
        ("fields", .obj
          [("summary", .str "Fix dashboard bug"),
           ("status", .obj [("name", .str "In Progress")]),
           ("labels", .arr [.str "Alpha"]),
           ("parent", .obj [("key", .str "KAN-1"),
                            ("fields", .obj [("summary", .str "Checkout epic")])])])]

/-- The template argument carrying exactly `DEFAULT_TEMPLATE`'s configuration. -/
def defaultTemplateInput : TemplateInput :=
  { fieldMapping := some DEFAULT_TEMPLATE.fieldMapping
    issueSelection := some DEFAULT_TEMPLATE.issueSelection }

/-- JavaScript `Math.round`: half-up towards positive infinity. -/
def jsRound (q : ℚ) : ℤ := ⌊q + 1 / 2⌋

/-- `formatManDays(manDays)` from `pptExportService.ts` (the identical frontend
copy lives in `TimesheetCard.tsx`). `none` is `null`/`undefined`, coerced to
`0` by `manDays ?? 0`; `NaN` is unrepresentable in `ℚ`, so the `isNaN` guard
is its false branch. -/
def formatManDays (manDays : Option ℚ) : String :=
  let validManDays := manDays.getD 0
  if validManDays = 0 then "0d"
  else
    let isNegative := validManDays < 0
    let absManDays := |validManDays|
    if absManDays < 1 then
      (if isNegative then "-" else "") ++ toString (jsRound (absManDays * 8)) ++ "h"
    else
      let wholeDays := ⌊absManDays⌋
      let remainingDays := absManDays - wholeDays
      let hours := jsRound (remainingDays * 8)
      if hours = 0 then (if isNegative then "-" else "") ++ toString wholeDays ++ "d"
      else (if isNegative then "-" else "") ++ toString wholeDays ++ "d "
             ++ toString hours ++ "h"

/-- `ReportTemplate` from `types/template.ts`. -/
structure ReportTemplate where
  id : String
  name : String
  description : Option String
  userId : String
  isShared : Bool
  fieldMapping : FieldMappingConfig
  issueSelection : IssueSelectionConfig
  createdAt : String
  updatedAt : String

/-- The in-memory `Map<string, ReportTemplate>` of `TemplateService`, as an
association list in insertion order. -/
def TemplateStore := List (String × ReportTemplate)

def storeGet (store : TemplateStore) (k : String) : Option ReportTemplate :=
  match store with
  | [] => none
  | e :: tl => if e.1 = k then some e.2 else storeGet tl k

/-- `Map.prototype.set`: overwrite in place, else append. -/
def storeSet (store : TemplateStore) (k : String) (v : ReportTemplate) :
    TemplateStore :=
  match store with
  | [] => [(k, v)]
  | e :: tl => if e.1 = k then (k, v) :: tl else e :: storeSet tl k v

def storeDelete (store : TemplateStore) (k : String) : TemplateStore :=
  match store with
  | [] => []
  | e :: tl => if e.1 = k then tl else e :: storeDelete tl k

def isJsSpace (c : Char) : Bool :=
  c = ' ' || c = '\t' || c = '\n' || c = '\r' || c = '\x0b' || c = '\x0c' ||
  c.toNat = 0xA0 || c.toNat = 0xFEFF

/-- JavaScript `String.prototype.trim` over the whitespace this data contains. -/
def jsTrim (s : String) : String :=
  String.mk (((s.data.dropWhile isJsSpace).reverse.dropWhile isJsSpace).reverse)

/-- The `userId?.toLowerCase().trim()` normalization every `TemplateService`
method applies (`userId` is a string here, so `?.` never short-circuits). -/
def normalizeUserId (s : String) : String := jsTrim (jsToLowerString s)

/-- `TemplateService.getTemplate(templateId, userId)`. -/
def getTemplate (store : TemplateStore) (templateId userId : String) :
    Option ReportTemplate :=
  match storeGet store templateId with
  | none => none
  | some t =>
    if normalizeUserId t.userId ≠ normalizeUserId userId ∧ t.isShared = false then none
    else some t

/-- `TemplateService.saveTemplate(template)` at time `now`: stamps `createdAt`
for unseen ids, always stamps `updatedAt`, stores under `template.id`, and
returns the stamped template (the source mutates the object it was given). -/
def saveTemplate (store : TemplateStore) (t : ReportTemplate) (now : String) :
    TemplateStore × ReportTemplate :=
  let t2 :=
    if (storeGet store t.id).isNone then { t with createdAt := now, updatedAt := now }
    else { t with updatedAt := now }
  (storeSet store t.id t2, t2)

/-- The `Partial<Omit<ReportTemplate, 'id' | 'createdAt' | 'updatedAt'>>`
update payload: absent members leave the template unchanged. -/
structure TemplateUpdates where
  name : Option String := none
  description : Option (Option String) := none
  userId : Option String := none
  isShared : Option Bool := none
  fieldMapping : Option FieldMappingConfig := none
  issueSelection : Option IssueSelectionConfig := none

/-- The `{ ...template, ...updates }` spread. -/
def applyUpdates (t : ReportTemplate) (u : TemplateUpdates) : ReportTemplate :=
  { t with
    name := u.name.getD t.name
    description := u.description.getD t.description
    userId := u.userId.getD t.userId
    isShared := u.isShared.getD t.isShared
    fieldMapping := u.fieldMapping.getD t.fieldMapping
    issueSelection := u.issueSelection.getD t.issueSelection }

/-- `TemplateService.updateTemplate(templateId, userId, updates)`. `now1` is
the timestamp taken in `updateTemplate` itself, `now2` the one `saveTemplate`
takes a moment later (the stored and returned template carry `now2`). -/
def updateTemplate (store : TemplateStore) (templateId userId : String)
    (updates : TemplateUpdates) (now1 now2 : String) :
    Option ReportTemplate × TemplateStore :=
  match storeGet store templateId with
  | none => (none, store)
  | some t =>
    if normalizeUserId t.userId ≠ normalizeUserId userId then (none, store)
    else
      let updated := { applyUpdates t updates with updatedAt := now1 }
      let res := saveTemplate store updated now2
      (some res.2, res.1)

/-- `TemplateService.deleteTemplate(templateId, userId)`: `false` when missing,
not owned, or named `"Default"`. -/
def deleteTemplate (store : TemplateStore) (templateId userId : String) :
    Bool × TemplateStore :=
  match storeGet store templateId with
  | none => (false, store)
  | some t =>
    if normalizeUserId t.userId ≠ normalizeUserId userId then (false, store)
    else if t.name = "Default" then (false, store)
    else (true, storeDelete store templateId)

lemma isNullish_of_truthy {v : JsonVal} (h : jsTruthy v = true) : isNullish v = false := by
  cases v <;> simp_all [jsTruthy, isNullish]

lemma walkE_eq (ps : List String) :
    ∀ current, walkE current ps = .ok (walk current ps) := by
  induction ps with
  | nil => intro c; rfl
  | cons part rest ih =>
    intro c
    by_cases hc : isNullish c = true
    · simp [walkE, walk, hc]
    · have hc' : isNullish c = false := by simpa using hc
      cases hpa : parseArrayAccess part with
      | none =>
        simp [walkE, walk, hc', hpa, jsGet, ih, Bind.bind, Except.bind]
      | some pr =>
        obtain ⟨arrayName, index⟩ := pr
        cases hv : propAccess c arrayName with
        | arr xs =>
          cases hg : xs[index]? with
          | some e =>
            by_cases he : isUndef e = true
            · simp [walkE, walk, hc', hpa, jsGet, hv, hg, he, Bind.bind, Except.bind]
            · simp [walkE, walk, hc', hpa, jsGet, hv, hg, he, ih, Bind.bind, Except.bind]
          | none =>
            simp [walkE, walk, hc', hpa, jsGet, hv, hg, Bind.bind, Except.bind]
        | _ =>
          simp_all [walkE, walk, hc', hpa, jsGet, Bind.bind, Except.bind]

lemma extractFieldValueE_eq (issue : JsonVal) (p : String) :
    extractFieldValueE issue p = .ok (extractFieldValue issue p) := by
  by_cases h1 : p = "" ∨ jsTruthy issue = false
  · simp [extractFieldValueE, extractFieldValue, h1]
  · by_cases h2 : strStartsWith p "fields." = false ∧ strStartsWith p "key" = false
        ∧ strStartsWith p "id" = false
    · by_cases h3 : p = "key" ∨ p = "id"
      · push_neg at h1
        have htr : jsTruthy issue = true := Bool.ne_false_iff.mp h1.2
        have hnn : isNullish issue = false := isNullish_of_truthy htr
        simp [extractFieldValueE, extractFieldValue, h1.1, htr, h2, h3, jsGet, hnn,
          Bind.bind, Except.bind, pure, Except.pure]
      · simp [extractFieldValueE, extractFieldValue, h1, h2, h3, walkE_eq]
    · simp [extractFieldValueE, extractFieldValue, h1, h2, walkE_eq]

/-- Claim C1: with the two children KAN-2 (status "Done", labels ["Alpha"],
parent KAN-1) and KAN-3 (status "In Progress", labels ["Alpha"], parent KAN-1)
and the default template, `generateReport` returns exactly one row with
category "Uncategorized", initiative "Alpha", `lastWeek` holding KAN-2's
summary, `currentWeek` holding KAN-3's summary, and empty `nextWeek`/`later`,
whatever the ambient date locale. -/
theorem generateReport_end_to_end_default (locale : String → String) :
    generateReport locale [kan2, kan3] (some defaultTemplateInput) =
      .ok [{ category := .str "Uncategorized"
             initiative := .str "Alpha"
             lastWeek := [.str "Implement login page"]
             currentWeek := [.str "Fix dashboard bug"]
             nextWeek := []
             later := [] }] := by
  rfl

/-- Claim C2: field-path resolution is total and null-propagating. The
`Except`-instrumented resolver (`extractFieldValueE`, in which every property
read may throw) always succeeds and agrees with the pure one; the traversal
returns `null` from a nullish start, when an indexed segment's target is not
an array, and when the index is out of bounds; and the spec's concrete example
resolves to `null`. -/
theorem extractFieldValue_total_null_propagating :
    (∀ issue path, extractFieldValueE issue path =
      Except.ok (extractFieldValue issue path)) ∧
    (∀ ps, walk .null ps = .null) ∧
    (∀ ps, walk .undef ps = .null) ∧
    (∀ current part arrayName index ps, isNullish current = false →
      parseArrayAccess part = some (arrayName, index) →
      isArrB (propAccess current arrayName) = false →
      walk current (part :: ps) = .null) ∧
    (∀ current part arrayName index ps xs, isNullish current = false →
      parseArrayAccess part = some (arrayName, index) →
      propAccess current arrayName = .arr xs → xs.length ≤ index →
      walk current (part :: ps) = .null) ∧
    extractFieldValue (.obj [("fields", .obj [("summary", .str "x")])])
      "fields.parent.fields.summary" = .null := by
  refine ⟨extractFieldValueE_eq, ?_, ?_, ?_, ?_, rfl⟩
  · intro ps; cases ps <;> rfl
  · intro ps; cases ps <;> rfl
  · intro current part arrayName index ps h1 h2 h3
    cases hv : propAccess current arrayName <;>
      simp_all [walk, isArrB]
  · intro current part arrayName index ps xs h1 h2 h3 h4
    have hg : xs[index]? = none := List.getElem?_eq_none h4
    simp [walk, h1, h2, h3, hg]

/-- Witness for C2: concrete instances of the hypothesis-bearing conjuncts
(an indexed segment whose target is a string, and one whose index is out of
bounds). -/
theorem extractFieldValue_total_null_propagating_witness :
    (isNullish (JsonVal.obj [("labels", .str "nope")]) = false ∧
     parseArrayAccess "labels[0]" = some ("labels", 0) ∧
     isArrB (propAccess (JsonVal.obj [("labels", .str "nope")]) "labels") = false ∧
     walk (JsonVal.obj [("labels", .str "nope")]) ["labels[0]"] = .null) ∧
    (isNullish (JsonVal.obj [("labels", .arr [.str "Alpha"])]) = false ∧
     parseArrayAccess "labels[3]" = some ("labels", 3) ∧
     propAccess (JsonVal.obj [("labels", .arr [.str "Alpha"])]) "labels" =
       .arr [.str "Alpha"] ∧
     walk (JsonVal.obj [("labels", .arr [.str "Alpha"])]) ["labels[3]"] = .null) :=
  ⟨⟨rfl, by decide, rfl,
    extractFieldValue_total_null_propagating.2.2.2.1
      (JsonVal.obj [("labels", .str "nope")]) "labels[0]" "labels" 0 []
      rfl (by decide) rfl⟩,
   ⟨rfl, by decide, rfl,
    extractFieldValue_total_null_propagating.2.2.2.2.1
      (JsonVal.obj [("labels", .arr [.str "Alpha"])]) "labels[3]" "labels" 3 []
      [.str "Alpha"] rfl (by decide) rfl (by decide)⟩⟩

def isStrB : JsonVal → Bool
  | .str _ => true
  | _ => false

/-- The shape `generateReport`'s unguarded property reads require of an issue:
an object whose `fields` member is an object carrying a `status` object with a
string `name`. Everything else (parent, labels, key, custom fields) may be
missing or malformed at any depth. -/
def wfIssue (i : JsonVal) : Bool :=
  isObjB i && isObjB (propAccess i "fields") &&
  isObjB (propAccess (propAccess i "fields") "status") &&
  isStrB (propAccess (propAccess (propAccess i "fields") "status") "name")

mutual

/-- No object anywhere inside the value carries a truthy own `toString`
member: exactly the values on which the formatter's object branch never
reaches the throwing `value.toString()` call. `JSON.parse` output violates
this only when the payload itself carries a `"toString"` key. -/
def noToStr : JsonVal → Bool
  | .obj fs => !(jsTruthy (objLookup fs "toString")) && noToStrMems fs
  | .arr xs => noToStrList xs
  | _ => true

def noToStrList : List JsonVal → Bool
  | [] => true
  | v :: tl => noToStr v && noToStrList tl

def noToStrMems : List (String × JsonVal) → Bool
  | [] => true
  | e :: tl => noToStr e.2 && noToStrMems tl

end

lemma isNullish_of_isObjB {v : JsonVal} (h : isObjB v = true) : isNullish v = false := by
  cases v <;> simp_all [isObjB, isNullish]

lemma jsGet_ok {v : JsonVal} (k : String) (h : isNullish v = false) :
    jsGet v k = .ok (propAccess v k) := by
  simp [jsGet, h]

lemma wfIssue_parts {i : JsonVal} (h : wfIssue i = true) :
    isObjB i = true ∧ isObjB (propAccess i "fields") = true ∧
    isObjB (propAccess (propAccess i "fields") "status") = true ∧
    ∃ s, propAccess (propAccess (propAccess i "fields") "status") "name" = .str s := by
  simp only [wfIssue, Bool.and_eq_true] at h
  obtain ⟨⟨⟨h1, h2⟩, h3⟩, h4⟩ := h
  refine ⟨h1, h2, h3, ?_⟩
  cases hv : propAccess (propAccess (propAccess i "fields") "status") "name" <;>
    simp_all [isStrB]

lemma noToStrList_mem {xs : List JsonVal} (h : noToStrList xs = true) {v : JsonVal}
    (hv : v ∈ xs) : noToStr v = true := by
  induction xs with
  | nil => cases hv
  | cons x tl ih =>
    simp only [noToStrList, Bool.and_eq_true] at h
    rcases List.mem_cons.mp hv with h1 | h1
    · subst h1; exact h.1
    · exact ih h.2 h1

lemma noToStrMems_mem {fs : List (String × JsonVal)} (h : noToStrMems fs = true)
    {e : String × JsonVal} (he : e ∈ fs) : noToStr e.2 = true := by
  induction fs with
  | nil => cases he
  | cons x tl ih =>
    simp only [noToStrMems, Bool.and_eq_true] at h
    rcases List.mem_cons.mp he with h1 | h1
    · subst h1; exact h.1
    · exact ih h.2 h1

lemma noToStrMems_of_forall {fs : List (String × JsonVal)}
    (h : ∀ e ∈ fs, noToStr e.2 = true) : noToStrMems fs = true := by
  induction fs with
  | nil => rfl
  | cons x tl ih =>
    simp only [noToStrMems, Bool.and_eq_true]
    exact ⟨h x (List.mem_cons_self x tl),
      ih (fun e he => h e (List.mem_cons_of_mem x he))⟩

lemma noToStr_null : noToStr .null = true := rfl

lemma noToStr_undef : noToStr .undef = true := rfl

lemma noToStr_num (n : Int) : noToStr (.num n) = true := rfl

lemma noToStr_bool (b : Bool) : noToStr (.bool b) = true := rfl

lemma noToStr_str (s : String) : noToStr (.str s) = true := rfl

lemma noToStr_objLookup {fs : List (String × JsonVal)} (h : noToStrMems fs = true)
    (k : String) : noToStr (objLookup fs k) = true := by
  induction fs with
  | nil => exact noToStr_undef
  | cons e tl ih =>
    obtain ⟨k2, v⟩ := e
    simp only [noToStrMems, Bool.and_eq_true] at h
    simp only [objLookup]
    split
    · exact h.1
    · exact ih h.2

lemma mem_of_getElem?_eq_some {xs : List JsonVal} {i : Nat} {e : JsonVal}
    (hg : xs[i]? = some e) : e ∈ xs := by
  obtain ⟨hlt, hco⟩ := List.getElem?_eq_some_iff.mp hg
  exact hco ▸ List.getElem_mem hlt

lemma noToStr_propAccess {v : JsonVal} (h : noToStr v = true) (k : String) :
    noToStr (propAccess v k) = true := by
  cases v with
  | obj fs =>
    simp only [noToStr, Bool.and_eq_true] at h
    exact noToStr_objLookup h.2 k
  | arr xs =>
    simp only [noToStr] at h
    by_cases hk : k = "length"
    · simp [propAccess, hk, noToStr_num]
    · simp only [propAccess, if_neg hk]
      cases hp : parseCanonicalNat k with
      | some i =>
        cases hg : xs[i]? with
        | some e => simpa [hg] using noToStrList_mem h (mem_of_getElem?_eq_some hg)
        | none => simpa [hg] using noToStr_undef
      | none => exact noToStr_undef
  | str s =>
    by_cases hk : k = "length"
    · simp [propAccess, hk, noToStr_num]
    · simp only [propAccess, if_neg hk]
      cases hp : parseCanonicalNat k with
      | some i =>
        cases hg : s.data[i]? with
        | some c => simpa [hg] using noToStr_str (String.mk [c])
        | none => simpa [hg] using noToStr_undef
      | none => exact noToStr_undef
  | null => exact noToStr_undef
  | undef => exact noToStr_undef
  | bool b => exact noToStr_undef
  | num n => exact noToStr_undef

lemma noToStr_jsOr {a b : JsonVal} (ha : noToStr a = true) (hb : noToStr b = true) :
    noToStr (jsOr a b) = true := by
  unfold jsOr
  split
  · exact ha
  · exact hb

lemma noToStr_walk : ∀ (ps : List String) {v : JsonVal}, noToStr v = true →
    noToStr (walk v ps) = true := by
  intro ps
  induction ps with
  | nil =>
    intro v h
    simp only [walk]
    split
    · exact noToStr_null
    · exact h
  | cons p rest ih =>
    intro v h
    by_cases hnv : isNullish v = true
    · simp [walk, hnv, noToStr_null]
    · have hnv' : isNullish v = false := by simpa using hnv
      cases hp : parseArrayAccess p with
      | none =>
        simp only [walk, hnv', Bool.false_eq_true, if_false, hp]
        exact ih (noToStr_propAccess h p)
      | some pr =>
        obtain ⟨name, idx⟩ := pr
        cases hv : propAccess v name with
        | arr xs =>
          have hxs : noToStrList xs = true := by
            have h2 := noToStr_propAccess h name
            rw [hv] at h2
            simpa [noToStr] using h2
          cases hg : xs[idx]? with
          | some e =>
            by_cases hu : isUndef e = true
            · simp [walk, hnv', hp, hv, hg, hu, noToStr_null]
            · have hu' : isUndef e = false := by simpa using hu
              have he : e ∈ xs := mem_of_getElem?_eq_some hg
              simpa [walk, hnv', hp, hv, hg, hu'] using
                ih (noToStrList_mem hxs he)
          | none => simp [walk, hnv', hp, hv, hg, noToStr_null]
        | null => simp [walk, hnv', hp, hv, noToStr_null]
        | undef => simp [walk, hnv', hp, hv, noToStr_null]
        | bool b => simp [walk, hnv', hp, hv, noToStr_null]
        | num n => simp [walk, hnv', hp, hv, noToStr_null]
        | str s => simp [walk, hnv', hp, hv, noToStr_null]
        | obj fs => simp [walk, hnv', hp, hv, noToStr_null]

lemma noToStr_walk_first {v : JsonVal}
    (hk : ∀ k, noToStr (propAccess v k) = true) (p : String) (ps : List String) :
    noToStr (walk v (p :: ps)) = true := by
  by_cases hnv : isNullish v = true
  · simp [walk, hnv, noToStr_null]
  · have hnv' : isNullish v = false := by simpa using hnv
    cases hp : parseArrayAccess p with
    | none =>
      simp only [walk, hnv', Bool.false_eq_true, if_false, hp]
      exact noToStr_walk ps (hk p)
    | some pr =>
      obtain ⟨name, idx⟩ := pr
      cases hv : propAccess v name with
      | arr xs =>
        have hxs : noToStrList xs = true := by
          have h2 := hk name
          rw [hv] at h2
          simpa [noToStr] using h2
        cases hg : xs[idx]? with
        | some e =>
          by_cases hu : isUndef e = true
          · simp [walk, hnv', hp, hv, hg, hu, noToStr_null]
          · have hu' : isUndef e = false := by simpa using hu
            have he : e ∈ xs := mem_of_getElem?_eq_some hg
            simpa [walk, hnv', hp, hv, hg, hu'] using
              noToStr_walk ps (noToStrList_mem hxs he)
        | none => simp [walk, hnv', hp, hv, hg, noToStr_null]
      | null => simp [walk, hnv', hp, hv, noToStr_null]
      | undef => simp [walk, hnv', hp, hv, noToStr_null]
      | bool b => simp [walk, hnv', hp, hv, noToStr_null]
      | num n => simp [walk, hnv', hp, hv, noToStr_null]
      | str s => simp [walk, hnv', hp, hv, noToStr_null]
      | obj fs => simp [walk, hnv', hp, hv, noToStr_null]

lemma splitOnDotAux_cons : ∀ (cs : List Char) (acc : List Char),
    ∃ p ps, splitOnDotAux cs acc = p :: ps := by
  intro cs
  induction cs with
  | nil => intro acc; exact ⟨_, _, rfl⟩
  | cons c rest ih =>
    intro acc
    by_cases hc : c = '.'
    · subst hc
      exact ⟨String.mk acc.reverse, splitOnDotAux rest [], by simp [splitOnDotAux]⟩
    · have hstep : splitOnDotAux (c :: rest) acc = splitOnDotAux rest (c :: acc) := by
        simp only [splitOnDotAux, if_neg hc]
      rw [hstep]
      exact ih (c :: acc)

lemma splitOnDot_cons (s : String) : ∃ p ps, splitOnDot s = p :: ps :=
  splitOnDotAux_cons s.data []

lemma noToStr_extract_of_propAccess (issue : JsonVal) (path : String)
    (hk : ∀ k, noToStr (propAccess issue k) = true) :
    noToStr (extractFieldValue issue path) = true := by
  unfold extractFieldValue
  split
  · decide
  · split
    · split
      · exact noToStr_jsOr (hk path) (by decide)
      · obtain ⟨p, ps, hsp⟩ := splitOnDot_cons ("fields." ++ path)
        rw [hsp]
        exact noToStr_walk_first hk p ps
    · obtain ⟨p, ps, hsp⟩ := splitOnDot_cons path
      rw [hsp]
      exact noToStr_walk_first hk p ps

lemma noToStr_extract {issue : JsonVal} (h : noToStr issue = true) (path : String) :
    noToStr (extractFieldValue issue path) = true :=
  noToStr_extract_of_propAccess issue path (fun k => noToStr_propAccess h k)

lemma enumProps_mem : ∀ (i : Nat) (xs : List JsonVal) (e : String × JsonVal),
    e ∈ enumProps i xs → e.2 ∈ xs := by
  intro i xs
  induction xs generalizing i with
  | nil => intro e he; cases he
  | cons x tl ih =>
    intro e he
    rcases List.mem_cons.mp he with h1 | h1
    · subst h1; exact List.mem_cons_self x tl
    · exact List.mem_cons_of_mem x (ih (i + 1) e h1)

lemma charProps_noToStr : ∀ (i : Nat) (cs : List Char) (e : String × JsonVal),
    e ∈ charProps i cs → noToStr e.2 = true := by
  intro i cs
  induction cs generalizing i with
  | nil => intro e he; cases he
  | cons c tl ih =>
    intro e he
    rcases List.mem_cons.mp he with h1 | h1
    · subst h1; rfl
    · exact ih (i + 1) e h1

lemma spreadProps_noToStr {p : JsonVal} (h : noToStr p = true) :
    ∀ e ∈ spreadProps p, noToStr e.2 = true := by
  cases p with
  | obj fs =>
    simp only [noToStr, Bool.and_eq_true] at h
    exact fun e he => noToStrMems_mem h.2 he
  | arr xs =>
    simp only [noToStr] at h
    exact fun e he => noToStrList_mem h (enumProps_mem 0 xs e he)
  | str s => exact fun e he => charProps_noToStr 0 s.data e he
  | null => intro e he; cases he
  | undef => intro e he; cases he
  | bool b => intro e he; cases he
  | num n => intro e he; cases he

lemma assocSetJson_noToStr {fs : List (String × JsonVal)} {k : String} {v : JsonVal}
    (hf : ∀ e ∈ fs, noToStr e.2 = true) (hv : noToStr v = true) :
    ∀ e ∈ assocSetJson fs k v, noToStr e.2 = true := by
  unfold assocSetJson
  split
  · intro e he
    rw [List.mem_map] at he
    obtain ⟨e0, he0, heq⟩ := he
    by_cases h0 : e0.1 = k
    · rw [if_pos h0] at heq
      subst heq
      exact hv
    · rw [if_neg h0] at heq
      subst heq
      exact hf e0 he0
  · intro e he
    rcases List.mem_append.mp he with h1 | h1
    · exact hf e h1
    · rw [List.mem_singleton] at h1
      subst h1
      exact hv

lemma spreadWithFields_propAccess_noToStr {p fv : JsonVal} (hp : noToStr p = true)
    (hfv : noToStr fv = true) (k : String) :
    noToStr (propAccess (spreadWithFields p fv) k) = true :=
  noToStr_objLookup
    (noToStrMems_of_forall (assocSetJson_noToStr (spreadProps_noToStr hp) hfv)) k

lemma fmtObj_ok {fs : List (String × JsonVal)}
    (hts : jsTruthy (objLookup fs "toString") = false) :
    ∃ r, fmtObj fs = Except.ok r := by
  dsimp only [fmtObj]
  split
  · exact ⟨_, rfl⟩
  · split
    · exact ⟨_, rfl⟩
    · split
      · exact ⟨_, rfl⟩
      · split
        · exact ⟨_, rfl⟩
        · exact ⟨.str (jsonStringify (.obj fs)), by simp [hts]⟩

mutual

theorem fmtCore_noToStr_ok (locale : String → String) (fb : JsonVal) :
    (v : JsonVal) → noToStr v = true → ∃ r, fmtCore locale fb v = Except.ok r
  | .null, _ => ⟨(fb, true), rfl⟩
  | .undef, _ => ⟨(fb, true), rfl⟩
  | .arr [], _ => ⟨(fb, true), rfl⟩
  | .arr (x :: xs), h => by
    have hl : noToStrList (x :: xs) = true := by simpa [noToStr] using h
    obtain ⟨rs, hrs⟩ := fmtList_noToStr_ok locale fb (x :: xs) hl
    exact ⟨(.str (jsJoinVals (dropFallback rs fb) ", "), false),
      by simp [fmtCore, hrs, Bind.bind, Except.bind]⟩
  | .obj fs, h => by
    have hts : jsTruthy (objLookup fs "toString") = false := by
      simp only [noToStr, Bool.and_eq_true, Bool.not_eq_true'] at h
      exact h.1
    obtain ⟨q, hq⟩ := fmtObj_ok hts
    exact ⟨(q, false), by simp [fmtCore, hq, Bind.bind, Except.bind]⟩
  | .str s, _ => ⟨_, rfl⟩
  | .bool b, _ => ⟨_, rfl⟩
  | .num n, _ => ⟨_, rfl⟩

theorem fmtList_noToStr_ok (locale : String → String) (fb : JsonVal) :
    (xs : List JsonVal) → noToStrList xs = true →
      ∃ rs, fmtList locale fb xs = Except.ok rs
  | [], _ => ⟨[], rfl⟩
  | v :: tl, h => by
    have h1 : noToStr v = true := by
      simp only [noToStrList, Bool.and_eq_true] at h; exact h.1
    have h2 : noToStrList tl = true := by
      simp only [noToStrList, Bool.and_eq_true] at h; exact h.2
    obtain ⟨r, hr⟩ := fmtCore_noToStr_ok locale fb v h1
    obtain ⟨rs, hrs⟩ := fmtList_noToStr_ok locale fb tl h2
    exact ⟨r :: rs, by simp [fmtList, hr, hrs, Bind.bind, Except.bind]⟩

end

lemma formatFieldValue_noToStr_ok (locale : String → String) (opts : FormatOptions)
    {v : JsonVal} (hn : noToStr v = true) :
    ∃ r, formatFieldValue locale v opts = Except.ok r := by
  cases v with
  | arr xs =>
    cases xs with
    | nil => exact ⟨_, rfl⟩
    | cons x tl =>
      have hlist : noToStrList (x :: tl) = true := by simpa [noToStr] using hn
      cases hm : opts.multiValueHandling.getD .join with
      | first =>
        obtain ⟨r, hr⟩ := fmtCore_noToStr_ok locale (resolveFallback opts.fallback) x
          (noToStrList_mem hlist (List.mem_cons_self x tl))
        exact ⟨r.1, by simp [formatFieldValue, hm, hr, Except.map]⟩
      | all => exact ⟨.arr (x :: tl), by simp [formatFieldValue, hm]⟩
      | join =>
        obtain ⟨items, hitems⟩ := fmtList_noToStr_ok locale
          (resolveFallback opts.fallback) (x :: tl) hlist
        exact ⟨.str (jsJoinVals (dropFallback items (resolveFallback opts.fallback))
            (opts.separator.getD ", ")),
          by simp [formatFieldValue, hm, hitems, Bind.bind, Except.bind]⟩
  | null => exact ⟨_, rfl⟩
  | undef => exact ⟨_, rfl⟩
  | bool b => exact ⟨_, rfl⟩
  | num n => exact ⟨_, rfl⟩
  | str s => exact ⟨_, rfl⟩
  | obj fs =>
    obtain ⟨r, hr⟩ := fmtCore_noToStr_ok locale (resolveFallback opts.fallback)
      (.obj fs) hn
    exact ⟨r.1, by simp [formatFieldValue, hr, Except.map]⟩

lemma getFieldDisplayValue_noToStr_ok (locale : String → String) (issue : JsonVal)
    (path : String) (opts : FormatOptions) (hn : noToStr issue = true) :
    ∃ r, getFieldDisplayValue locale issue path opts = Except.ok r :=
  formatFieldValue_noToStr_ok locale opts (noToStr_extract hn path)

lemma getFieldDisplayValue_spread_ok (locale : String → String) {p fv : JsonVal}
    (path : String) (opts : FormatOptions) (hp : noToStr p = true)
    (hfv : noToStr fv = true) :
    ∃ r, getFieldDisplayValue locale (spreadWithFields p fv) path opts =
      Except.ok r :=
  formatFieldValue_noToStr_ok locale opts
    (noToStr_extract_of_propAccess _ path
      (fun k => spreadWithFields_propAccess_noToStr hp hfv k))

/-- A group table whose member lists are all non-empty and whose members all
satisfy `P`. -/
def groupsOK (P : JsonVal → Prop) (m : List (JsonVal × List JsonVal)) : Prop :=
  ∀ e ∈ m, e.2 ≠ [] ∧ ∀ i ∈ e.2, P i

lemma mapPush_groupsOK {P : JsonVal → Prop} {m : List (JsonVal × List JsonVal)}
    {key issue : JsonVal} (hm : groupsOK P m) (hi : P issue) :
    groupsOK P (mapPush m key issue) := by
  unfold mapPush
  split
  · intro e he
    rw [List.mem_map] at he
    obtain ⟨e0, he0, heq⟩ := he
    by_cases hk : jsStrictEq e0.1 key = true
    · rw [if_pos hk] at heq
      subst heq
      refine ⟨by simp, ?_⟩
      intro i hi'
      rw [List.mem_append] at hi'
      rcases hi' with h | h
      · exact (hm e0 he0).2 i h
      · rw [List.mem_singleton] at h; subst h; exact hi
    · rw [if_neg hk] at heq
      subst heq
      exact hm e0 he0
  · intro e he
    rw [List.mem_append] at he
    rcases he with h | h
    · exact hm e h
    · rw [List.mem_singleton] at h
      subst h
      exact ⟨by simp, by intro i hi'; rw [List.mem_singleton] at hi'; subst hi'; exact hi⟩

lemma foldl_step_groupsOK {P : JsonVal → Prop}
    (step : List (JsonVal × List JsonVal) → JsonVal → List (JsonVal × List JsonVal))
    (hstep : ∀ m i, P i → groupsOK P m → groupsOK P (step m i)) :
    ∀ (xs : List JsonVal) (m : List (JsonVal × List JsonVal)),
      (∀ i ∈ xs, P i) → groupsOK P m → groupsOK P (xs.foldl step m) := by
  intro xs
  induction xs with
  | nil => intro m _ hm; exact hm
  | cons x tl ih =>
    intro m hxs hm
    exact ih (step m x) (fun i hi => hxs i (List.mem_cons_of_mem x hi))
      (hstep m x (hxs x (List.mem_cons_self x tl)) hm)

lemma groupIssuesByParent_groupsOK {P : JsonVal → Prop} {issues : List JsonVal}
    (field : String) (h : ∀ i ∈ issues, P i) :
    groupsOK P (groupIssuesByParent issues field) := by
  unfold groupIssuesByParent
  refine foldl_step_groupsOK _ ?_ issues [] h (by intro e he; cases he)
  intro m i hi hm
  exact mapPush_groupsOK hm hi

theorem foldlM_ok {α β : Type} (f : β → α → Except String β) (xs : List α)
    (h : ∀ x ∈ xs, ∀ acc, ∃ acc', f acc x = Except.ok acc') :
    ∀ init, ∃ r, xs.foldlM f init = Except.ok r := by
  induction xs with
  | nil => intro init; exact ⟨init, rfl⟩
  | cons x tl ih =>
    intro init
    obtain ⟨b, hb⟩ := h x (List.mem_cons_self x tl) init
    obtain ⟨r, hr⟩ := ih (fun y hy acc => h y (List.mem_cons_of_mem x hy) acc) b
    refine ⟨r, ?_⟩
    simp only [List.foldlM, hb]
    simpa [Bind.bind, Except.bind] using hr

theorem foldlM_ok_inv {α β : Type} (f : β → α → Except String β) (Q : β → Prop)
    (xs : List α)
    (h : ∀ x ∈ xs, ∀ acc, Q acc → ∃ acc', f acc x = Except.ok acc' ∧ Q acc') :
    ∀ init, Q init → ∃ r, xs.foldlM f init = Except.ok r ∧ Q r := by
  induction xs with
  | nil => intro init hq; exact ⟨init, rfl, hq⟩
  | cons x tl ih =>
    intro init hq
    obtain ⟨b, hb, hqb⟩ := h x (List.mem_cons_self x tl) init hq
    obtain ⟨r, hr, hqr⟩ := ih (fun y hy acc => h y (List.mem_cons_of_mem x hy) acc) b hqb
    refine ⟨r, ?_, hqr⟩
    simp only [List.foldlM, hb]
    simpa [Bind.bind, Except.bind] using hr

lemma categoryOfGroup_ok (locale : String → String) (fm : FieldMappingConfig)
    {c : JsonVal} (rest : List JsonVal) (hc : wfIssue c = true)
    (hn : noToStr c = true) :
    ∃ v, categoryOfGroup locale fm (c :: rest) = .ok v := by
  obtain ⟨h1, h2, _, _⟩ := wfIssue_parts hc
  simp only [categoryOfGroup, jsGet_ok "fields" (isNullish_of_isObjB h1),
    jsGet_ok "parent" (isNullish_of_isObjB h2), Bind.bind, Except.bind,
    pure, Except.pure]
  split
  · have hp : noToStr (propAccess (propAccess c "fields") "parent") = true :=
      noToStr_propAccess (noToStr_propAccess hn "fields") "parent"
    exact getFieldDisplayValue_spread_ok locale fm.categoryField
      { fallback := .str "Uncategorized" } hp
      (noToStr_jsOr (noToStr_propAccess hp "fields") (by decide))
  · exact ⟨_, rfl⟩

lemma rowForGroup_ok (locale : String → String) (fm : FieldMappingConfig)
    (category initiativeValue : JsonVal) {gIssues : List JsonVal}
    (h : ∀ i ∈ gIssues, wfIssue i = true ∧ noToStr i = true) :
    ∃ row, rowForGroup locale fm category initiativeValue gIssues = .ok row := by
  apply foldlM_ok
  intro i hi row
  obtain ⟨hw, hn⟩ := h i hi
  obtain ⟨h1, h2, h3, s, h4⟩ := wfIssue_parts hw
  obtain ⟨item, hitem⟩ := getFieldDisplayValue_noToStr_ok locale i fm.issueItemField
    { multiValueHandling := some .join, separator := some ", "
      fallback := propAccess i "key" } hn
  simp only [jsGet_ok "fields" (isNullish_of_isObjB h1),
    jsGet_ok "status" (isNullish_of_isObjB h2),
    jsGet_ok "name" (isNullish_of_isObjB h3),
    jsGet_ok "key" (isNullish_of_isObjB h1), h4, hitem,
    Bind.bind, Except.bind, pure, Except.pure]
  exact ⟨_, rfl⟩

lemma groupIssuesByField_ok (locale : String → String) (fieldPath : String)
    (mvh : MultiValueHandling) (sep : String) {issues : List JsonVal}
    (P : JsonVal → Prop) (hP : ∀ i ∈ issues, P i)
    (hN : ∀ i ∈ issues, noToStr i = true) :
    ∃ groups, groupIssuesByField locale issues fieldPath mvh sep = .ok groups ∧
      groupsOK P groups := by
  unfold groupIssuesByField
  refine foldlM_ok_inv _ (groupsOK P) _ ?_ [] (by intro e he; cases he)
  intro issue hx m hQ
  have hnv : noToStr (extractFieldValue issue fieldPath) = true :=
    noToStr_extract (hN issue hx) fieldPath
  obtain ⟨fv, hfv⟩ := formatFieldValue_noToStr_ok locale
    { multiValueHandling := some mvh, separator := some sep
      fallback := .str "No value" } hnv
  simp only [hfv, Bind.bind, Except.bind]
  split
  · next x xs heq =>
    have hels : noToStrList (x :: xs) = true := by
      rw [heq] at hnv
      simpa [noToStr] using hnv
    refine foldlM_ok_inv _ (groupsOK P) _ ?_ m hQ
    intro v hv m2 hQ2
    obtain ⟨f2, hf2⟩ := formatFieldValue_noToStr_ok locale
      { fallback := .str "No value" } (noToStrList_mem hels hv)
    refine ⟨mapPush m2 (jsOr f2 (.str "No value")) issue, ?_,
      mapPush_groupsOK hQ2 (hP issue hx)⟩
    simp [hf2, Bind.bind, Except.bind, pure, Except.pure]
  · exact ⟨mapPush m (jsOr fv (.str "No value")) issue,
      by simp [pure, Except.pure], mapPush_groupsOK hQ (hP issue hx)⟩

/-- A child issue whose `fields.bad` member is an object carrying an own
truthy `toString` member (`JSON.parse` of `{"bad":{"toString":"x"}}` builds
exactly this shape). -/
def toStringIssue : JsonVal :=
  .obj [("key", .str "K1"),
        ("fields", .obj
          [("summary", .str "S"),
           ("status", .obj [("name", .str "Done")]),
           ("bad", .obj [("toString", .str "x")])])]

/-- A template whose `issueItemField` reaches the `fields.bad` object. -/
def badItemTemplate : TemplateInput :=
  { fieldMapping := some
      { categoryField := "fields.parent.fields.summary"
        initiativeField := "fields.labels"
        issueItemField := "fields.bad"
        multiValueHandling := .join
        multiValueSeparator := ", " } }

/-- Claim C3 counterexample: `generateReport` does throw. On a child issue
whose `fields` object has no `status` member, the source evaluates
`issue.fields.status.name`, a `TypeError` in JavaScript; and even with a
well-shaped status, an issue field holding an object with a truthy own
`toString` makes the formatter execute `value.toString()`, which throws
because the member is not callable. Both are modelled as `Except.error`:
the result is not a row array. -/
theorem generateReport_throws_on_missing_status :
    generateReport idLocale [.obj [("fields", .obj [("summary", .str "x")])]] none =
      .error "TypeError: cannot read properties of null or undefined" ∧
    wfIssue toStringIssue = true ∧
    generateReport idLocale [toStringIssue] (some badItemTemplate) =
      .error "TypeError: value.toString is not a function" :=
  ⟨rfl, by decide, rfl⟩

lemma generateReport_body_ok (locale : String → String) (fm : FieldMappingConfig)
    (sel : IssueSelectionConfig) (issues : List JsonVal)
    (h : ∀ i ∈ issues, wfIssue i = true ∧ noToStr i = true) :
    ∃ rows,
      (groupIssuesByParent (getIssuesWithDepth issues sel)
          sel.parentGroupingField).foldlM
        (fun rows entry => do
          let category ← categoryOfGroup locale fm entry.2
          let groupedByInitiative ← groupIssuesByField locale entry.2
            fm.initiativeField fm.multiValueHandling fm.multiValueSeparator
          groupedByInitiative.foldlM
            (fun rows2 ge => do
              let row ← rowForGroup locale fm category ge.1 ge.2
              pure (rows2 ++ [row]))
            rows)
        [] = Except.ok rows := by
  have hall : ∀ i ∈ getIssuesWithDepth issues sel,
      wfIssue i = true ∧ noToStr i = true := by
    intro i hi
    apply h
    simpa [getIssuesWithDepth] using hi
  apply foldlM_ok
  intro entry hentry rows
  have hOK := groupIssuesByParent_groupsOK
    (P := fun i => wfIssue i = true ∧ noToStr i = true) _ hall entry hentry
  obtain ⟨hne, hmem⟩ := hOK
  obtain ⟨c, rest, hcs⟩ : ∃ c rest, entry.2 = c :: rest := by
    cases hx : entry.2 with
    | nil => exact absurd hx hne
    | cons c rest => exact ⟨c, rest, rfl⟩
  rw [hcs] at hmem
  have hc := hmem c (List.mem_cons_self c rest)
  obtain ⟨cat, hcat⟩ := categoryOfGroup_ok locale fm rest hc.1 hc.2
  obtain ⟨igs, higs, hgOK⟩ := groupIssuesByField_ok locale fm.initiativeField
    fm.multiValueHandling fm.multiValueSeparator
    (P := fun i => wfIssue i = true ∧ noToStr i = true) hmem
    (fun i hi => (hmem i hi).2)
  simp only [hcs, hcat, higs, Bind.bind, Except.bind]
  apply foldlM_ok
  intro ge hge rows2
  obtain ⟨row, hrow⟩ := rowForGroup_ok locale fm cat ge.1 ((hgOK ge hge).2)
  exact ⟨rows2 ++ [row], by simp [hrow, Bind.bind, Except.bind, pure, Except.pure]⟩

/-- Claim C3 as amended: `generateReport` never throws for any template
(malformed field paths included) provided every issue carries the shape its
unguarded reads and its formatter calls need: `fields.status.name` present
with a string name, and no object at any depth with a truthy own `toString`
member (which would make `formatFieldValue` execute `value.toString()` and
throw). The statement quantifies over every locale, issue list, and
template. -/
theorem generateReport_total_on_wf_issues (locale : String → String)
    (issues : List JsonVal) (template : Option TemplateInput)
    (h : ∀ i ∈ issues, wfIssue i = true ∧ noToStr i = true) :
    ∃ rows, generateReport locale issues template = .ok rows := by
  cases template with
  | none =>
    exact generateReport_body_ok locale DEFAULT_TEMPLATE.fieldMapping
      DEFAULT_TEMPLATE.issueSelection issues h
  | some t =>
    exact generateReport_body_ok locale
      (t.fieldMapping.getD DEFAULT_TEMPLATE.fieldMapping)
      (t.issueSelection.getD DEFAULT_TEMPLATE.issueSelection) issues h

/-- Witness for the amended C3 at the two concrete scenario issues. -/
theorem generateReport_total_on_wf_issues_witness :
    (∀ i ∈ [kan2, kan3], wfIssue i = true ∧ noToStr i = true) ∧
    ∃ rows, generateReport idLocale [kan2, kan3] none = .ok rows :=
  ⟨by decide, generateReport_total_on_wf_issues idLocale [kan2, kan3] none (by decide)⟩

/-- Claim C4: `categorizeIssue` is total on status names, normalizes by
lowercasing then NFD-decomposing and stripping combining marks, and tests
substring membership against the fixed vocabularies in fixed order
(done, then in-progress, then to-do, then `LATER`); the spec's example
statuses land in the claimed sections. -/
theorem categorizeIssue_vocabularies :
    (∀ s, categorizeIssue s =
      (let t := stripCombiningMarks (nfdString (jsToLowerString s))
       if strContains t "done" || strContains t "closed" || strContains t "resolved" ||
          strContains t "termine" || strContains t "fini" || strContains t "complete" ||
          strContains t "resolu" then IssueSection.LAST_WEEK
       else if strContains t "in progress" || strContains t "in development" ||
          strContains t "testing" || strContains t "en cours" ||
          strContains t "en developpement" || strContains t "en test" ||
          strContains t "en revue" || strContains t "code review" ||
          strContains t "review" then IssueSection.CURRENT_WEEK
       else if strContains t "to do" || strContains t "open" ||
          strContains t "ready" || strContains t "a faire" ||
          strContains t "a realiser" || strContains t "nouveau" ||
          strContains t "nouvelle" || strContains t "pret" ||
          strContains t "backlog" then IssueSection.NEXT_WEEK
       else IssueSection.LATER)) ∧
    categorizeIssue "Terminé" = .LAST_WEEK ∧
    categorizeIssue "Done" = .LAST_WEEK ∧
    categorizeIssue "Fini" = .LAST_WEEK ∧
    categorizeIssue "En cours" = .CURRENT_WEEK ∧
    categorizeIssue "In Progress" = .CURRENT_WEEK ∧
    categorizeIssue "À faire" = .NEXT_WEEK ∧
    categorizeIssue "Backlog" = .NEXT_WEEK ∧
    categorizeIssue "Blocked" = .LATER :=
  ⟨fun _ => rfl, by decide, by decide, by decide, by decide, by decide,
   by decide, by decide, by decide⟩

lemma resolveFallback_idem (v : JsonVal) :
    resolveFallback (resolveFallback v) = resolveFallback v := by
  cases v <;> rfl

lemma formatFieldValue_default_eq_fmtCore (locale : String → String)
    (v fb : JsonVal) :
    formatFieldValue locale v { fallback := fb } =
      (fmtCore locale (resolveFallback fb) v).map (fun p => p.1) := by
  cases v with
  | arr xs =>
    cases xs with
    | nil => rfl
    | cons x tl =>
      cases hx : fmtList locale (resolveFallback fb) (x :: tl) with
      | error e =>
        simp [formatFieldValue, fmtCore, hx, Bind.bind, Except.bind, Except.map]
      | ok items =>
        simp [formatFieldValue, fmtCore, hx, Bind.bind, Except.bind, Except.map]
  | null => rfl
  | undef => rfl
  | bool b => rfl
  | num n => rfl
  | str s => rfl
  | obj fs =>
    cases hq : fmtObj fs with
    | error e =>
      simp [formatFieldValue, fmtCore, hq, Bind.bind, Except.bind, Except.map]
    | ok q =>
      simp [formatFieldValue, fmtCore, hq, Bind.bind, Except.bind, Except.map]

/-- Claim C5: the multi-value policy of `formatFieldValue`. Nullish values and
the empty array produce the (resolved) fallback; a non-empty array maps,
under `'first'`, to the recursive format of element 0, under `'all'`, to the
raw array unchanged, and under `'join'` (also the default), to the
element-wise formats (`fmtList`, which sequences `fmtCore` — the recursive
format — over the elements and propagates its exceptions) with
fallback-valued elements dropped, joined by the separator. -/
theorem formatFieldValue_multi_value_policy :
    (∀ (locale : String → String) (opts : FormatOptions),
      formatFieldValue locale .null opts = .ok (resolveFallback opts.fallback) ∧
      formatFieldValue locale .undef opts = .ok (resolveFallback opts.fallback) ∧
      formatFieldValue locale (.arr []) opts = .ok (resolveFallback opts.fallback)) ∧
    (∀ (locale : String → String) (v fb : JsonVal),
      formatFieldValue locale v { fallback := fb } =
        (fmtCore locale (resolveFallback fb) v).map (fun p => p.1)) ∧
    (∀ (locale : String → String) (opts : FormatOptions) (x : JsonVal)
       (xs : List JsonVal),
      formatFieldValue locale (.arr (x :: xs))
          { opts with multiValueHandling := some .first } =
        formatFieldValue locale x { fallback := resolveFallback opts.fallback }) ∧
    (∀ (locale : String → String) (opts : FormatOptions) (x : JsonVal)
       (xs : List JsonVal),
      formatFieldValue locale (.arr (x :: xs))
          { opts with multiValueHandling := some .all } = .ok (.arr (x :: xs))) ∧
    (∀ (locale : String → String) (opts : FormatOptions) (x : JsonVal)
       (xs : List JsonVal),
      formatFieldValue locale (.arr (x :: xs))
          { opts with multiValueHandling := some .join } =
        (fmtList locale (resolveFallback opts.fallback) (x :: xs)).map
          (fun items => .str (jsJoinVals
            (dropFallback items (resolveFallback opts.fallback))
            (opts.separator.getD ", ")))) ∧
    (∀ (locale : String → String) (fb v : JsonVal) (tl : List JsonVal),
      fmtList locale fb (v :: tl) =
        (fmtCore locale fb v).bind
          (fun r => (fmtList locale fb tl).map (fun rs => r :: rs))) ∧
    (∀ (locale : String → String) (opts : FormatOptions) (x : JsonVal)
       (xs : List JsonVal),
      formatFieldValue locale (.arr (x :: xs))
          { opts with multiValueHandling := none } =
        formatFieldValue locale (.arr (x :: xs))
          { opts with multiValueHandling := some .join }) := by
  refine ⟨?_, ?_, ?_, ?_, ?_, ?_, ?_⟩
  · intro locale opts
    exact ⟨rfl, rfl, rfl⟩
  · intro locale v fb
    exact formatFieldValue_default_eq_fmtCore locale v fb
  · intro locale opts x xs
    rw [formatFieldValue_default_eq_fmtCore, resolveFallback_idem]
    rfl
  · intro locale opts x xs
    rfl
  · intro locale opts x xs
    cases hx : fmtList locale (resolveFallback opts.fallback) (x :: xs) with
    | error e =>
      simp [formatFieldValue, hx, Bind.bind, Except.bind, Except.map]
    | ok items =>
      simp [formatFieldValue, hx, Bind.bind, Except.bind, Except.map]
  · intro locale fb v tl
    cases hr : fmtCore locale fb v with
    | error e => simp [fmtList, hr, Bind.bind, Except.bind, Except.map]
    | ok r =>
      cases hrs : fmtList locale fb tl with
      | error e => simp [fmtList, hr, hrs, Bind.bind, Except.bind, Except.map]
      | ok rs => simp [fmtList, hr, hrs, Bind.bind, Except.bind, Except.map]
  · intro locale opts x xs
    rfl

/-- Claim C10 counterexample: under `'join'`, the fallback string is not
returned only for nullish or empty-array inputs. With elements `["x", "y"]`,
separator `", "` and fallback `"x, y"`, the joined result coincides with the
fallback, and the input is a non-empty array (and a plain string equal to the
fallback also formats to it). -/
theorem formatFieldValue_join_fallback_collision :
    formatFieldValue idLocale (.arr [.str "x", .str "y"])
        { multiValueHandling := some .join, separator := some ", "
          fallback := .str "x, y" } = .ok (.str "x, y") ∧
    (JsonVal.arr [.str "x", .str "y"] = .null → False) ∧
    (JsonVal.arr [.str "x", .str "y"] = .undef → False) ∧
    (JsonVal.arr [.str "x", .str "y"] = .arr [] → False) ∧
    formatFieldValue idLocale (.str "x, y") { fallback := .str "x, y" } =
      .ok (.str "x, y") := by
  refine ⟨rfl, ?_, ?_, ?_, rfl⟩
  · intro h; cases h
  · intro h; cases h
  · intro h
    injection h with h2
    cases h2

/-- Claim C10 as amended: joining a non-empty array whose elements all format
to the fallback (by reference or primitive value, the `!==` of the filter)
yields the empty string — every element is dropped and zero strings are
joined; nullish values and the empty array always yield the fallback. A
joined result may still coincide with the fallback string for other inputs,
so the converse direction of the original claim does not hold (see the
counterexample). -/
theorem formatFieldValue_join_all_fallback_empty :
    (∀ (locale : String → String) (opts : FormatOptions) (x : JsonVal)
       (xs : List JsonVal) (items : List (JsonVal × Bool)),
      fmtList locale (resolveFallback opts.fallback) (x :: xs) = .ok items →
      (∀ p ∈ items,
        (p.2 || jsStrictEq p.1 (resolveFallback opts.fallback)) = true) →
      formatFieldValue locale (.arr (x :: xs))
        { opts with multiValueHandling := some .join } = .ok (.str "")) ∧
    (∀ (locale : String → String) (opts : FormatOptions),
      formatFieldValue locale .null opts = .ok (resolveFallback opts.fallback) ∧
      formatFieldValue locale .undef opts = .ok (resolveFallback opts.fallback) ∧
      formatFieldValue locale (.arr []) opts = .ok (resolveFallback opts.fallback)) := by
  constructor
  · intro locale opts x xs items hlist hall
    have hfil : dropFallback items (resolveFallback opts.fallback) = [] := by
      unfold dropFallback
      have hemp : items.filter
          (fun p => !(p.2 || jsStrictEq p.1 (resolveFallback opts.fallback))) = [] := by
        rw [List.filter_eq_nil_iff]
        intro p hp
        simp [hall p hp]
      rw [hemp]
      rfl
    simp [formatFieldValue, hlist, hfil, Bind.bind, Except.bind, jsJoinVals]
  · intro locale opts
    exact ⟨rfl, rfl, rfl⟩

/-- Witness for the amended C10: `[null]` under `'join'` with the default
fallback formats to the empty string, not to `"-"`. -/
theorem formatFieldValue_join_all_fallback_empty_witness :
    fmtList idLocale (resolveFallback JsonVal.undef) [JsonVal.null] =
      .ok [(resolveFallback JsonVal.undef, true)] ∧
    (∀ p ∈ [((resolveFallback JsonVal.undef : JsonVal), true)],
      (p.2 || jsStrictEq p.1 (resolveFallback JsonVal.undef)) = true) ∧
    formatFieldValue idLocale (.arr [JsonVal.null])
      { multiValueHandling := some .join, separator := none
        fallback := JsonVal.undef } = .ok (.str "") :=
  ⟨rfl, by decide,
   formatFieldValue_join_all_fallback_empty.1 idLocale
     { multiValueHandling := none, separator := none, fallback := JsonVal.undef }
     JsonVal.null [] [(resolveFallback JsonVal.undef, true)] rfl (by decide)⟩

/-- Claim C6: man-day display formatting. Zero (and nullish input) renders as
`"0d"`; a non-zero magnitude below one day renders as rounded hours with the
sign taken from the original quantity; a magnitude of at least one day renders
whole days plus rounded leftover hours, omitting the hour suffix when it
rounds to zero; and the spec's examples evaluate as claimed. -/
theorem formatManDays_display :
    formatManDays (some 0) = "0d" ∧
    formatManDays none = "0d" ∧
    (∀ d : ℚ, d ≠ 0 → |d| < 1 →
      formatManDays (some d) =
        (if d < 0 then "-" else "") ++ toString (jsRound (|d| * 8)) ++ "h") ∧
    (∀ d : ℚ, 1 ≤ |d| →
      formatManDays (some d) =
        (if jsRound ((|d| - ⌊|d|⌋) * 8) = 0 then
          (if d < 0 then "-" else "") ++ toString ⌊|d|⌋ ++ "d"
         else
          (if d < 0 then "-" else "") ++ toString ⌊|d|⌋ ++ "d "
            ++ toString (jsRound ((|d| - ⌊|d|⌋) * 8)) ++ "h")) ∧
    formatManDays (some 0.5) = "4h" ∧
    formatManDays (some 1.5) = "1d 4h" ∧
    formatManDays (some (-0.25)) = "-2h" := by
  have habs05 : |(0.5 : ℚ)| = 0.5 := by rw [abs_of_pos]; norm_num
  have habs15 : |(1.5 : ℚ)| = 1.5 := by rw [abs_of_pos]; norm_num
  have habs25 : |(-0.25 : ℚ)| = 0.25 := by rw [abs_of_neg] <;> norm_num
  refine ⟨rfl, rfl, ?_, ?_, ?_, ?_, ?_⟩
  · intro d hd0 hlt
    simp only [formatManDays, Option.getD, if_neg hd0, if_pos hlt]
  · intro d hge
    have hd0 : d ≠ 0 := by
      intro h
      rw [h] at hge
      norm_num at hge
    have hnlt : ¬(|d| < 1) := not_lt.mpr hge
    simp only [formatManDays, Option.getD, if_neg hd0, if_neg hnlt]
  · have h1 : ((0.5 : ℚ) = 0) = False := by norm_num
    have h2 : (|(0.5 : ℚ)| < 1) = True := by rw [habs05]; norm_num
    have h3 : ((0.5 : ℚ) < 0) = False := by norm_num
    have h4 : jsRound (|(0.5 : ℚ)| * 8) = 4 := by
      rw [habs05]; norm_num [jsRound]
    simp only [formatManDays, Option.getD, h1, h2, h3, h4, if_true, if_false]
    rfl
  · have h1 : ((1.5 : ℚ) = 0) = False := by norm_num
    have h2 : (|(1.5 : ℚ)| < 1) = False := by rw [habs15]; norm_num
    have h3 : ((1.5 : ℚ) < 0) = False := by norm_num
    have h4 : (⌊|(1.5 : ℚ)|⌋ : ℤ) = 1 := by rw [habs15]; norm_num
    have h5 : jsRound ((|(1.5 : ℚ)| - ⌊|(1.5 : ℚ)|⌋) * 8) = 4 := by
      rw [habs15]
      norm_num [jsRound]
    have h6 : (jsRound ((|(1.5 : ℚ)| - ⌊|(1.5 : ℚ)|⌋) * 8) = 0) = False := by
      rw [h5]; norm_num
    simp only [formatManDays, Option.getD, h1, h2, h3, if_true, if_false]
    simp only [h6, if_false]
    simp only [h5]
    simp only [h4]
    rfl
  · have h1 : ((-0.25 : ℚ) = 0) = False := by norm_num
    have h2 : (|(-0.25 : ℚ)| < 1) = True := by rw [habs25]; norm_num
    have h3 : ((-0.25 : ℚ) < 0) = True := by norm_num
    have h4 : jsRound (|(-0.25 : ℚ)| * 8) = 2 := by
      rw [habs25]; norm_num [jsRound]
    simp only [formatManDays, Option.getD, h1, h2, h3, h4, if_true, if_false]
    rfl

/-- Witness for C6: the hypothesis-bearing conjuncts applied at `0.5` and
`-0.25` (sub-day, positive and negative) and at `1.5` and `2` (whole days
with and without a leftover-hour suffix). -/
theorem formatManDays_display_witness :
    ((0.5 : ℚ) ≠ 0 ∧ |(0.5 : ℚ)| < 1 ∧
      formatManDays (some 0.5) =
        (if (0.5 : ℚ) < 0 then "-" else "")
          ++ toString (jsRound (|(0.5 : ℚ)| * 8)) ++ "h") ∧
    ((-0.25 : ℚ) ≠ 0 ∧ |(-0.25 : ℚ)| < 1 ∧
      formatManDays (some (-0.25)) =
        (if (-0.25 : ℚ) < 0 then "-" else "")
          ++ toString (jsRound (|(-0.25 : ℚ)| * 8)) ++ "h") ∧
    (1 ≤ |(1.5 : ℚ)| ∧
      formatManDays (some 1.5) =
        (if jsRound ((|(1.5 : ℚ)| - ⌊|(1.5 : ℚ)|⌋) * 8) = 0 then
          (if (1.5 : ℚ) < 0 then "-" else "") ++ toString ⌊|(1.5 : ℚ)|⌋ ++ "d"
         else
          (if (1.5 : ℚ) < 0 then "-" else "") ++ toString ⌊|(1.5 : ℚ)|⌋ ++ "d "
            ++ toString (jsRound ((|(1.5 : ℚ)| - ⌊|(1.5 : ℚ)|⌋) * 8)) ++ "h")) ∧
    (1 ≤ |(2 : ℚ)| ∧
      formatManDays (some 2) =
        (if jsRound ((|(2 : ℚ)| - ⌊|(2 : ℚ)|⌋) * 8) = 0 then
          (if (2 : ℚ) < 0 then "-" else "") ++ toString ⌊|(2 : ℚ)|⌋ ++ "d"
         else
          (if (2 : ℚ) < 0 then "-" else "") ++ toString ⌊|(2 : ℚ)|⌋ ++ "d "
            ++ toString (jsRound ((|(2 : ℚ)| - ⌊|(2 : ℚ)|⌋) * 8)) ++ "h")) :=
  ⟨⟨by norm_num, by rw [abs_of_pos] <;> norm_num,
    formatManDays_display.2.2.1 0.5 (by norm_num)
      (by rw [abs_of_pos] <;> norm_num)⟩,
   ⟨by norm_num, by rw [abs_of_neg] <;> norm_num,
    formatManDays_display.2.2.1 (-0.25) (by norm_num)
      (by rw [abs_of_neg] <;> norm_num)⟩,
   ⟨by rw [abs_of_pos] <;> norm_num,
    formatManDays_display.2.2.2.1 1.5 (by rw [abs_of_pos] <;> norm_num)⟩,
   ⟨by rw [abs_of_pos] <;> norm_num,
    formatManDays_display.2.2.2.1 2 (by rw [abs_of_pos] <;> norm_num)⟩⟩

lemma storeGet_storeSet (store : TemplateStore) (k : String) (v : ReportTemplate) :
    storeGet (storeSet store k v) k = some v := by
  induction store with
  | nil => simp [storeGet, storeSet]
  | cons e tl ih =>
    by_cases hk : e.1 = k
    · simp [storeGet, storeSet, hk]
    · simp [storeGet, storeSet, hk, ih]

/-- Claim C7: template read authorization fails closed. For a stored template,
`getTemplate` returns it exactly when the requester matches the owner after
lowercase-and-trim normalization or the template is shared; otherwise, and for
unknown ids, it returns nothing. -/
theorem getTemplate_fails_closed :
    (∀ (store : TemplateStore) (t : ReportTemplate) (reqId : String),
      storeGet store t.id = some t →
      (getTemplate store t.id reqId = some t ↔
        (normalizeUserId t.userId = normalizeUserId reqId ∨ t.isShared = true))) ∧
    (∀ (store : TemplateStore) (t : ReportTemplate) (reqId : String),
      storeGet store t.id = some t →
      normalizeUserId t.userId ≠ normalizeUserId reqId → t.isShared = false →
      getTemplate store t.id reqId = none) ∧
    (∀ (store : TemplateStore) (templateId reqId : String),
      storeGet store templateId = none →
      getTemplate store templateId reqId = none) := by
  refine ⟨?_, ?_, ?_⟩
  · intro store t reqId hget
    unfold getTemplate
    rw [hget]
    by_cases hown : normalizeUserId t.userId = normalizeUserId reqId
    · simp [hown]
    · by_cases hsh : t.isShared = true
      · simp [hown, hsh]
      · have hsh' : t.isShared = false := by
          cases h : t.isShared
          · rfl
          · exact absurd h hsh
        simp [hown, hsh']
  · intro store t reqId hget hown hsh
    unfold getTemplate
    rw [hget]
    simp [hown, hsh]
  · intro store templateId reqId hget
    unfold getTemplate
    rw [hget]

/-- A concrete private template used by the template-service witnesses. -/
def ownerTemplate : ReportTemplate where
  id := "t1"
  name := "Mine"
  description := none
  userId := "Owner@Example.com"
  isShared := false
  fieldMapping := DEFAULT_TEMPLATE.fieldMapping
  issueSelection := DEFAULT_TEMPLATE.issueSelection
  createdAt := "2024-01-01T00:00:00.000Z"
  updatedAt := "2024-01-01T00:00:00.000Z"

/-- Witness for C7: a concrete one-template store; a stranger gets nothing. -/
theorem getTemplate_fails_closed_witness :
    storeGet [("t1", ownerTemplate)] ownerTemplate.id = some ownerTemplate ∧
    normalizeUserId ownerTemplate.userId ≠ normalizeUserId "attacker@evil.com" ∧
    ownerTemplate.isShared = false ∧
    getTemplate [("t1", ownerTemplate)] ownerTemplate.id "attacker@evil.com" = none :=
  ⟨rfl, by decide, rfl,
   getTemplate_fails_closed.2.1 [("t1", ownerTemplate)] ownerTemplate
     "attacker@evil.com" rfl (by decide) rfl⟩

/-- A concrete template named `"Default"`, owned by `owner@x.com`. -/
def defaultNamedTemplate : ReportTemplate where
  id := "d1"
  name := "Default"
  description := some DEFAULT_TEMPLATE.description
  userId := "owner@x.com"
  isShared := false
  fieldMapping := DEFAULT_TEMPLATE.fieldMapping
  issueSelection := DEFAULT_TEMPLATE.issueSelection
  createdAt := "2024-01-01T00:00:00.000Z"
  updatedAt := "2024-01-01T00:00:00.000Z"

/-- Claim C8 counterexample: `updateTemplate` does not protect the name of a
template named `"Default"`. The owner's rename to `"Weekly"` is neither
rejected (a template is returned) nor ignored (the stored name changes). -/
theorem updateTemplate_renames_default :
    (updateTemplate [("d1", defaultNamedTemplate)] "d1" "owner@x.com"
        { name := some "Weekly" } "T1" "T2").1.map (fun t => t.name) =
      some "Weekly" ∧
    (storeGet (updateTemplate [("d1", defaultNamedTemplate)] "d1" "owner@x.com"
        { name := some "Weekly" } "T1" "T2").2 "d1").map (fun t => t.name) =
      some "Weekly" ∧
    ("Weekly" = "Default" → False) :=
  ⟨rfl, rfl, by decide⟩

/-- Claim C8 as amended: `deleteTemplate` refuses to delete any stored template
named `"Default"` (for every caller, the owner included) and leaves the store
unchanged; `updateTemplate`, however, does not protect the name: an owner's
update carrying a new name is applied, to the returned and the stored
template alike. -/
theorem default_template_delete_protected_rename_not :
    (∀ (store : TemplateStore) (templateId userId : String) (t : ReportTemplate),
      storeGet store templateId = some t → t.name = "Default" →
      deleteTemplate store templateId userId = (false, store)) ∧
    (∀ (store : TemplateStore) (templateId userId : String) (u : TemplateUpdates)
       (t : ReportTemplate) (n now1 now2 : String),
      storeGet store templateId = some t →
      normalizeUserId t.userId = normalizeUserId userId →
      u.name = some n →
      (updateTemplate store templateId userId u now1 now2).1.map (fun x => x.name) =
        some n ∧
      (storeGet (updateTemplate store templateId userId u now1 now2).2
          t.id).map (fun x => x.name) = some n) := by
  constructor
  · intro store templateId userId t hget hname
    unfold deleteTemplate
    rw [hget]
    by_cases hown : normalizeUserId t.userId ≠ normalizeUserId userId
    · simp [hown]
    · simp [hown, hname]
  · intro store templateId userId u t n now1 now2 hget hown hu
    have hnot : ¬(normalizeUserId t.userId ≠ normalizeUserId userId) :=
      fun hne => hne hown
    unfold updateTemplate
    rw [hget]
    dsimp only
    rw [if_neg hnot]
    refine ⟨?_, ?_⟩ <;> simp only [saveTemplate]
    · split <;> simp [applyUpdates, hu]
    · split <;> simp [storeGet_storeSet, applyUpdates, hu]

/-- Witness for the amended C8: the concrete `"Default"` template cannot be
deleted by its owner, yet the owner's rename is applied. -/
theorem default_template_delete_protected_rename_not_witness :
    (storeGet [("d1", defaultNamedTemplate)] "d1" = some defaultNamedTemplate ∧
     defaultNamedTemplate.name = "Default" ∧
     deleteTemplate [("d1", defaultNamedTemplate)] "d1" "owner@x.com" =
       (false, [("d1", defaultNamedTemplate)])) ∧
    (normalizeUserId defaultNamedTemplate.userId = normalizeUserId "owner@x.com" ∧
     (updateTemplate [("d1", defaultNamedTemplate)] "d1" "owner@x.com"
         { name := some "Weekly" } "T1" "T2").1.map (fun x => x.name) =
       some "Weekly" ∧
     (storeGet (updateTemplate [("d1", defaultNamedTemplate)] "d1" "owner@x.com"
         { name := some "Weekly" } "T1" "T2").2
         defaultNamedTemplate.id).map (fun x => x.name) = some "Weekly") :=
  ⟨⟨rfl, rfl,
    default_template_delete_protected_rename_not.1 [("d1", defaultNamedTemplate)]
      "d1" "owner@x.com" defaultNamedTemplate rfl rfl⟩,
   ⟨by decide,
    (default_template_delete_protected_rename_not.2 [("d1", defaultNamedTemplate)]
      "d1" "owner@x.com" { name := some "Weekly" } defaultNamedTemplate "Weekly"
      "T1" "T2" rfl (by decide) rfl).1,
    (default_template_delete_protected_rename_not.2 [("d1", defaultNamedTemplate)]
      "d1" "owner@x.com" { name := some "Weekly" } defaultNamedTemplate "Weekly"
      "T1" "T2" rfl (by decide) rfl).2⟩⟩

/-- Claim C9: an accepted owner update preserves the template's identity. The
returned and stored template keep the original `id` and `createdAt`; every
other field equals the update's value when supplied and the original
otherwise, except `updatedAt`, which takes the save-time stamp. -/
theorem updateTemplate_preserves_identity
    (store : TemplateStore) (t : ReportTemplate) (userId : String)
    (u : TemplateUpdates) (now1 now2 : String)
    (hget : storeGet store t.id = some t)
    (hown : normalizeUserId t.userId = normalizeUserId userId) :
    updateTemplate store t.id userId u now1 now2 =
      (some { applyUpdates t u with updatedAt := now2 },
       storeSet store t.id { applyUpdates t u with updatedAt := now2 }) ∧
    ({ applyUpdates t u with updatedAt := now2 } : ReportTemplate).id = t.id ∧
    ({ applyUpdates t u with updatedAt := now2 } : ReportTemplate).createdAt =
      t.createdAt ∧
    storeGet (updateTemplate store t.id userId u now1 now2).2 t.id =
      some { applyUpdates t u with updatedAt := now2 } := by
  have hnot : ¬(normalizeUserId t.userId ≠ normalizeUserId userId) :=
    fun hne => hne hown
  have hmain : updateTemplate store t.id userId u now1 now2 =
      (some { applyUpdates t u with updatedAt := now2 },
       storeSet store t.id { applyUpdates t u with updatedAt := now2 }) := by
    unfold updateTemplate
    rw [hget]
    dsimp only
    rw [if_neg hnot]
    simp only [saveTemplate]
    have hid : ({ applyUpdates t u with updatedAt := now1 } : ReportTemplate).id
        = t.id := rfl
    rw [hid, hget]
    simp [applyUpdates]
  refine ⟨hmain, rfl, rfl, ?_⟩
  rw [hmain]
  exact storeGet_storeSet store t.id _

/-- Witness for C9 at a concrete store and update. -/
theorem updateTemplate_preserves_identity_witness :
    (storeGet [("t1", ownerTemplate)] ownerTemplate.id = some ownerTemplate ∧
     normalizeUserId ownerTemplate.userId = normalizeUserId "owner@example.com") ∧
    storeGet (updateTemplate [("t1", ownerTemplate)] ownerTemplate.id
        "owner@example.com" { isShared := some true } "T1" "T2").2
      ownerTemplate.id =
      some { applyUpdates ownerTemplate { isShared := some true } with
             updatedAt := "T2" } :=
  ⟨⟨rfl, by decide⟩,
   (updateTemplate_preserves_identity [("t1", ownerTemplate)] ownerTemplate
     "owner@example.com" { isShared := some true } "T1" "T2" rfl
     (by decide)).2.2.2⟩
